/-
Verification of the menu-candidate extraction core (mlmp).

This file gives a shallow embedding, in Lean 4, of the candidate-extraction
pipeline of the repository: the text utilities and price patterns
(`src/lib/candidates/regex.ts`), the price normalizer
(`src/lib/candidates/priceRemoval.ts`), the section-header detector
(`src/lib/candidates/headers.ts`), the dictionary lookup
(`src/lib/candidates/entreeLookup.ts`) and the candidate extractor and
confidence scorer (`src/lib/candidates/extractCandidates.ts`).

Modelling conventions:
* JavaScript strings are modelled as `List Char`; `String` wrappers are
  provided where convenient.  JavaScript numbers are modelled as exact
  rationals (`ℚ`); `Math.sqrt` (used only by the header detector's cosine
  similarity, whose value is never consumed by the extractor beyond the
  `> 0.5` threshold test) is modelled exactly over `ℝ`, with a decidable
  rational decision procedure proved equivalent to the real-valued score
  comparison.  `Math.exp` (used only by the trained-mode sigmoid) is an
  abstract parameter.
* The regular expressions of the source are embedded via a small regex
  engine (`RE`) with JavaScript semantics: leftmost match, backtracking
  priority (greedy quantifiers longest-first, alternation left-first),
  anchors, word boundaries, and single-character lookarounds, which covers
  every construct the source uses.  Global `replace`/`match`/`split` scan
  non-overlapping matches left to right on the original string.
* The module-level `g`-flagged regex objects of the source carry a mutable
  `lastIndex` that `RegExp.prototype.test` reads and writes.  The main
  development uses fresh-state (pure) semantics; the stateful behaviour is
  modelled separately (`testFrom`, `containsAnyPriceStateful`,
  `containsPriceStateful`) and is the subject of the determinism claim.
* `uuidv4()` candidate ids are not modelled (no claim mentions ids); the
  external dictionary store and the trained-weight cache are parameters.
-/
import Mathlib

set_option maxRecDepth 100000
set_option maxHeartbeats 1000000

attribute [local semireducible] Rat.add Rat.mul Rat.sub Rat.inv Rat.ofScientific

namespace Mlmp

/-! ### JavaScript character primitives -/

/-- JavaScript `\d`. -/
def isDigitC (c : Char) : Bool := '0' ≤ c && c ≤ '9'

/-- JavaScript `\w` = `[A-Za-z0-9_]`. -/
def isWordC (c : Char) : Bool :=
  ('A' ≤ c && c ≤ 'Z') || ('a' ≤ c && c ≤ 'z') || isDigitC c || c = '_'

/-- JavaScript `\s` (whitespace and line terminators). -/
def isSpaceC (c : Char) : Bool :=
  c = ' ' || c = '\t' || c = '\n' || c = '\x0b' || c = '\x0c' || c = '\r' ||
  c.toNat = 0xa0 || c.toNat = 0x1680 ||
  (0x2000 ≤ c.toNat && c.toNat ≤ 0x200a) ||
  c.toNat = 0x2028 || c.toNat = 0x2029 || c.toNat = 0x202f ||
  c.toNat = 0x205f || c.toNat = 0x3000 || c.toNat = 0xfeff

/-- The four currency symbols `[$€£¥]` used throughout the source. -/
def isCurrencyC (c : Char) : Bool := c = '$' || c = '€' || c = '£' || c = '¥'

def isAsciiUpperC (c : Char) : Bool := 'A' ≤ c && c ≤ 'Z'

def isAsciiLowerC (c : Char) : Bool := 'a' ≤ c && c ≤ 'z'

def isAsciiLetterC (c : Char) : Bool := isAsciiUpperC c || isAsciiLowerC c

/-- Latin-1 uppercase accented letters `À`–`Þ` (excluding `×`), i.e. the class
`[ÀÁÂÃÄÅÆÇÈÉÊËÌÍÎÏÐÑÒÓÔÕÖØÙÚÛÜÝÞ]` written out in the source. -/
def isAccentedUpperC (c : Char) : Bool :=
  (0xc0 ≤ c.toNat && c.toNat ≤ 0xde) && c.toNat ≠ 0xd7

/-- Latin-1 lowercase accented letters `à`–`þ` (excluding `÷`). -/
def isAccentedLowerC (c : Char) : Bool :=
  (0xe0 ≤ c.toNat && c.toNat ≤ 0xfe) && c.toNat ≠ 0xf7

/-- Character-wise `String.prototype.toLowerCase`, restricted to the
Basic-Latin and Latin-1 ranges exercised by the source's vocabularies. -/
def toLowerJS (c : Char) : Char :=
  if isAsciiUpperC c || isAccentedUpperC c then Char.ofNat (c.toNat + 32) else c

/-- Character-wise `String.prototype.toUpperCase`, restricted to the
Basic-Latin and Latin-1 ranges (multi-character expansions such as `ß → SS`
are outside the modelled range). -/
def toUpperJS (c : Char) : Char :=
  if isAsciiLowerC c || isAccentedLowerC c then Char.ofNat (c.toNat - 32) else c

def lowerL (s : List Char) : List Char := s.map toLowerJS

def upperL (s : List Char) : List Char := s.map toUpperJS

/-- `String.prototype.trim`. -/
def jsTrim (s : List Char) : List Char :=
  ((s.dropWhile isSpaceC).reverse.dropWhile isSpaceC).reverse

/-- Split on runs of whitespace, as `str.split(/\s+/)` does: an empty leading
(resp. trailing) field is produced when the string starts (resp. ends) with
whitespace, and the empty string yields `[""]`.  The boolean tracks whether
the previous character was whitespace (i.e. the current field was already
flushed). -/
def jsSplitWsGo : Bool → List Char → List Char → List (List Char)
  | _, cur, [] => [cur.reverse]
  | prevWs, cur, c :: rest =>
    if isSpaceC c then
      if prevWs then jsSplitWsGo true cur rest
      else cur.reverse :: jsSplitWsGo true [] rest
    else jsSplitWsGo false (c :: cur) rest

/-- `str.split(/\s+/)`. -/
def jsSplitWs (s : List Char) : List (List Char) := jsSplitWsGo false [] s

/-- Non-empty whitespace-separated words, the ubiquitous
`split(/\s+/).filter(w => w.length > 0)` idiom. -/
def wordsOf (s : List Char) : List (List Char) :=
  (jsSplitWs s).filter (fun w => !w.isEmpty)

/-- Does `s` start with `pre`? -/
def startsWithL : List Char → List Char → Bool
  | _, [] => true
  | [], _ :: _ => false
  | a :: s, b :: t => a = b && startsWithL s t

/-- `String.prototype.includes`: does `s` contain `sub` as a substring? -/
def jsIncludes : List Char → List Char → Bool
  | [], sub => startsWithL [] sub
  | c :: rest, sub => startsWithL (c :: rest) sub || jsIncludes rest sub

/-! ### A small regex engine with JavaScript semantics

`RE` covers exactly the constructs the source's regex literals use:
character classes, sequencing, alternation (left branch preferred), greedy
`?`, greedy bounded repetition `{lo,hi}` over a character class, greedy `*`
and `+` over a character class, the anchors `^` and `$`, the word boundary
`\b`, and single-character negative lookbehind `(?<!…)` / lookahead `(?!…)`.

`matchLens re left right` returns the lengths of all matches of `re` at the
current position, in backtracking priority order (the head is the length the
JavaScript engine would pick).  `left` is the reversed prefix of the subject
before the current position (needed by `^`, `\b` and lookbehind); `right` is
the remaining suffix. -/

inductive RE where
  | eps : RE
  | cls (p : Char → Bool) : RE
  | seq (a b : RE) : RE
  | alt (a b : RE) : RE
  | opt (a : RE) : RE
  | rep (p : Char → Bool) (lo hi : Nat) : RE
  | star (p : Char → Bool) : RE
  | plus (p : Char → Bool) : RE
  | lazyStar (p : Char → Bool) : RE
  | lazyPlus (p : Char → Bool) : RE
  | bos : RE
  | eos : RE
  | wb : RE
  | nlb (p : Char → Bool) : RE
  | nla (p : Char → Bool) : RE
  | group (i : Nat) (a : RE) : RE

/-- Sequence of several regexes. -/
def RE.seqs : List RE → RE
  | [] => .eps
  | [r] => r
  | r :: rs => .seq r (RE.seqs rs)

/-- A literal string, compared case-sensitively. -/
def RE.lit (s : List Char) : RE := RE.seqs (s.map (fun c => RE.cls (fun d => d = c)))

/-- A literal string, compared case-insensitively (the `/i` flag). -/
def RE.liti (s : List Char) : RE :=
  RE.seqs (s.map (fun c => RE.cls (fun d => toLowerJS d = toLowerJS c)))

/-- Length of the longest prefix of `l` whose characters satisfy `p`,
capped at `hi`. -/
def countWhileUpTo (p : Char → Bool) : Nat → List Char → Nat
  | 0, _ => 0
  | _ + 1, [] => 0
  | hi + 1, c :: rest => if p c then countWhileUpTo p hi rest + 1 else 0

/-- `[k, k-1, …, lo]` (empty if `k < lo`): greedy priority order for a
repetition that can consume at most `k` and at least `lo` characters. -/
def greedyRange (lo : Nat) : Nat → List Nat
  | 0 => if lo = 0 then [0] else []
  | k + 1 => if lo ≤ k + 1 then (k + 1) :: greedyRange lo k else []

/-- `[lo, …, k]`: lazy priority order (shortest first). -/
def lazyRange (lo k : Nat) : List Nat := (greedyRange lo k).reverse

/-- Is the character (if any) a word character?  Used by `\b`. -/
def isWordOpt : Option Char → Bool
  | none => false
  | some c => isWordC c

/-- Captured intervals: `(group index, start, end)`, offsets relative to the
current position. -/
abbrev Caps := List (Nat × Nat × Nat)

def shiftCaps (n : Nat) (cs : Caps) : Caps :=
  cs.map fun t => (t.1, t.2.1 + n, t.2.2 + n)

/-- All matches of `re` at the current position, as (length, captures)
pairs, in backtracking priority order (the head is the alternative the
JavaScript engine picks). -/
def matchCaps : RE → List Char → List Char → List (Nat × Caps)
  | .eps, _, _ => [(0, [])]
  | .cls p, _, right =>
    match right with
    | [] => []
    | c :: _ => if p c then [(1, [])] else []
  | .seq a b, left, right =>
    (matchCaps a left right).flatMap fun pr =>
      (matchCaps b ((right.take pr.1).reverse ++ left) (right.drop pr.1)).map fun qr =>
        (pr.1 + qr.1, pr.2 ++ shiftCaps pr.1 qr.2)
  | .alt a b, left, right => matchCaps a left right ++ matchCaps b left right
  | .opt a, left, right => matchCaps a left right ++ [(0, [])]
  | .rep p lo hi, _, right =>
    (greedyRange lo (countWhileUpTo p hi right)).map (fun n => (n, []))
  | .star p, _, right =>
    (greedyRange 0 (countWhileUpTo p right.length right)).map (fun n => (n, []))
  | .plus p, _, right =>
    (greedyRange 1 (countWhileUpTo p right.length right)).map (fun n => (n, []))
  | .lazyStar p, _, right =>
    (lazyRange 0 (countWhileUpTo p right.length right)).map (fun n => (n, []))
  | .lazyPlus p, _, right =>
    (lazyRange 1 (countWhileUpTo p right.length right)).map (fun n => (n, []))
  | .bos, left, _ => if left.isEmpty then [(0, [])] else []
  | .eos, _, right => if right.isEmpty then [(0, [])] else []
  | .wb, left, right =>
    if isWordOpt left.head? ≠ isWordOpt right.head? then [(0, [])] else []
  | .nlb p, left, _ =>
    match left with
    | [] => [(0, [])]
    | c :: _ => if p c then [] else [(0, [])]
  | .nla p, _, right =>
    match right with
    | [] => [(0, [])]
    | c :: _ => if p c then [] else [(0, [])]
  | .group i a, left, right =>
    (matchCaps a left right).map fun pr => (pr.1, (i, 0, pr.1) :: pr.2)

/-- All match lengths of `re` at the current position, in backtracking
priority order. -/
def matchLens (re : RE) (left right : List Char) : List Nat :=
  (matchCaps re left right).map (·.1)

/-- The match length the JavaScript engine picks at this position, if any. -/
def firstLen (re : RE) (left right : List Char) : Option Nat :=
  (matchLens re left right).head?

/-- The match the JavaScript engine picks at this position, with captures. -/
def firstCaps (re : RE) (left right : List Char) : Option (Nat × Caps) :=
  (matchCaps re left right).head?

/-- The text of capture group `i`, given the suffix starting at the match
position. -/
def capText (right : List Char) (caps : Caps) (i : Nat) : List Char :=
  match caps.find? (fun t => t.1 = i) with
  | none => []
  | some t => (right.drop t.2.1).take (t.2.2 - t.2.1)

/-- One step of the global scan: find the next match at or after the current
position.  Returns the characters skipped before the match and the match
length, or `none`.  Structural recursion on a fuel bound (`right.length`
suffices). -/
def findFrom : Nat → RE → List Char → List Char → Option (Nat × Nat)
  | fuel, re, left, right =>
    match firstLen re left right with
    | some n => some (0, n)
    | none =>
      match fuel, right with
      | fuel' + 1, c :: rest =>
        (findFrom fuel' re (c :: left) rest).map fun pr => (pr.1 + 1, pr.2)
      | _, _ => none

/-- `regex.replace(subject, repl)` for a `g`-flagged regex: non-overlapping
leftmost matches, each replaced by `repl`; a zero-length match inserts the
replacement and advances one character. -/
def replaceGo (re : RE) (repl : List Char) : Nat → List Char → List Char → List Char
  | 0, _, _ => []
  | fuel + 1, left, right =>
    match firstLen re left right with
    | some (n + 1) =>
      repl ++ replaceGo re repl fuel ((right.take (n + 1)).reverse ++ left)
        (right.drop (n + 1))
    | some 0 =>
      match right with
      | [] => repl
      | c :: rest => repl ++ c :: replaceGo re repl fuel (c :: left) rest
    | none =>
      match right with
      | [] => []
      | c :: rest => c :: replaceGo re repl fuel (c :: left) rest

/-- Global replacement of every match of `re` in `s` by `repl`. -/
def jsReplace (re : RE) (repl : List Char) (s : List Char) : List Char :=
  replaceGo re repl (s.length + 1) [] s

/-- Fresh-state `regex.test(s)`: is there a match anywhere? -/
def reTest (re : RE) (s : List Char) : Bool :=
  (findFrom s.length re [] s).isSome

/-- All matched substrings, in order: `s.match(re)` for a `g`-flagged `re`
(`[]` plays the role of JavaScript's `null`). -/
def matchAllGo (re : RE) : Nat → List Char → List Char → List (List Char)
  | 0, _, _ => []
  | fuel + 1, left, right =>
    match firstLen re left right with
    | some (n + 1) =>
      right.take (n + 1) ::
        matchAllGo re fuel ((right.take (n + 1)).reverse ++ left)
          (right.drop (n + 1))
    | some 0 =>
      match right with
      | [] => [[]]
      | c :: rest => [] :: matchAllGo re fuel (c :: left) rest
    | none =>
      match right with
      | [] => []
      | c :: rest => matchAllGo re fuel (c :: left) rest

def jsMatchAll (re : RE) (s : List Char) : List (List Char) :=
  matchAllGo re (s.length + 1) [] s

/-- `s.split(re)` for a regex without capture groups: the pieces between
non-overlapping leftmost matches. -/
def splitGo (re : RE) : Nat → List Char → List Char → List Char → List (List Char)
  | 0, _, _, cur => [cur.reverse]
  | fuel + 1, left, right, cur =>
    match firstLen re left right with
    | some (n + 1) =>
      cur.reverse ::
        splitGo re fuel ((right.take (n + 1)).reverse ++ left)
          (right.drop (n + 1)) []
    | some 0 =>
      match right with
      | [] => [cur.reverse]
      | c :: rest => splitGo re fuel (c :: left) rest (c :: cur)
    | none =>
      match right with
      | [] => [cur.reverse]
      | c :: rest => splitGo re fuel (c :: left) rest (c :: cur)

def jsSplit (re : RE) (s : List Char) : List (List Char) :=
  splitGo re (s.length + 1) [] s []

/-- Stateful `regex.test(s)` on a `g`-flagged regex object: the search starts
at `lastIndex`; on success `lastIndex` becomes the end of the match, on
failure it is reset to `0`.  Returns `(result, new lastIndex)`. -/
def testFrom (re : RE) (lastIndex : Nat) (s : List Char) : Bool × Nat :=
  if lastIndex > s.length then (false, 0)
  else
    let left := (s.take lastIndex).reverse
    let right := s.drop lastIndex
    match findFrom right.length re left right with
    | some (skip, n) => (true, lastIndex + skip + n)
    | none => (false, 0)

/-- Non-global `text.match(re)` with captures: the leftmost match.  Returns
the suffix of the subject at the match position, the match length and the
captures (so group texts can be read off with `capText`). -/
def execFirstGo : Nat → RE → List Char → List Char → Option (List Char × Nat × Caps)
  | fuel, re, left, right =>
    match firstCaps re left right with
    | some pr => some (right, pr.1, pr.2)
    | none =>
      match fuel, right with
      | f + 1, c :: rest => execFirstGo f re (c :: left) rest
      | _, _ => none

def jsExecFirst (re : RE) (s : List Char) : Option (List Char × Nat × Caps) :=
  execFirstGo s.length re [] s

/-- The `while ((match = re.exec(text)) !== null)` loop on a `g`-flagged
regex: every non-overlapping leftmost match, with captures. -/
def execAllGo (re : RE) : Nat → List Char → List Char → List (List Char × Nat × Caps)
  | 0, _, _ => []
  | fuel + 1, left, right =>
    match firstCaps re left right with
    | some (n + 1, caps) =>
      (right, n + 1, caps) ::
        execAllGo re fuel ((right.take (n + 1)).reverse ++ left) (right.drop (n + 1))
    | some (0, caps) =>
      match right with
      | [] => [(right, 0, caps)]
      | c :: rest => (right, 0, caps) :: execAllGo re fuel (c :: left) rest
    | none =>
      match right with
      | [] => []
      | c :: rest => execAllGo re fuel (c :: left) rest

def jsExecAll (re : RE) (s : List Char) : List (List Char × Nat × Caps) :=
  execAllGo re (s.length + 1) [] s

/-! ### Regex building blocks shared by the source's price patterns -/

/-- `[.,]`. -/
def isDotCommaC (c : Char) : Bool := c = '.' || c = ','

/-- `\d{lo,hi}`. -/
def reDigits (lo hi : Nat) : RE := RE.rep isDigitC lo hi

/-- `(?:[.,]\d{2})?` — an optional two-decimal fraction. -/
def reDecimals : RE := RE.opt (RE.seq (RE.cls isDotCommaC) (reDigits 2 2))

/-- `\s?`. -/
def reSpaceOpt : RE := RE.opt (RE.cls isSpaceC)

/-- A single literal character. -/
def reChar (c : Char) : RE := RE.cls (fun d => d = c)

/-- `\bmarket\s+price\b` (the `/i` flag, as in the source). -/
def marketPriceRE : RE :=
  RE.seqs [RE.wb, RE.liti "market".data, RE.plus isSpaceC, RE.liti "price".data, RE.wb]

/-! ### Embedding of `src/lib/candidates/regex.ts` (text utilities) -/

/-- `PRICE_PATTERNS`, in source order.  Each entry is a direct transcription
of the corresponding regex literal. -/
def PRICE_PATTERNS : List RE :=
  [ -- /(?<!\w)(?:[$])\s?\d{1,3}(?:[.,]\d{2})?(?!\w)/g
    RE.seqs [RE.nlb isWordC, reChar '$', reSpaceOpt, reDigits 1 3, reDecimals,
      RE.nla isWordC],
    -- /(?<!\w)(?:[€])\s?\d{1,3}(?:[.,]\d{2})?(?!\w)|(?<!\w)\d{1,3}(?:[.,]\d{2})?\s?[€](?!\w)/g
    RE.alt
      (RE.seqs [RE.nlb isWordC, reChar '€', reSpaceOpt, reDigits 1 3, reDecimals,
        RE.nla isWordC])
      (RE.seqs [RE.nlb isWordC, reDigits 1 3, reDecimals, reSpaceOpt, reChar '€',
        RE.nla isWordC]),
    -- /(?<!\w)(?:[£])\s?\d{1,3}(?:[.,]\d{2})?(?!\w)/g
    RE.seqs [RE.nlb isWordC, reChar '£', reSpaceOpt, reDigits 1 3, reDecimals,
      RE.nla isWordC],
    -- /(?<!\w)(?:[¥])\s?\d{1,4}(?!\w)/g
    RE.seqs [RE.nlb isWordC, reChar '¥', reSpaceOpt, reDigits 1 4, RE.nla isWordC],
    -- /(?<!\w)\d{1,3}(?:[.,]\d{2})(?!\w)/g
    RE.seqs [RE.nlb isWordC, reDigits 1 3, RE.cls isDotCommaC, reDigits 2 2,
      RE.nla isWordC],
    -- /(?<!\w)\d{1,3}(?:[.,]\d{2})?\s*$/g
    RE.seqs [RE.nlb isWordC, reDigits 1 3, reDecimals, RE.star isSpaceC, RE.eos] ]

/-- `SECTION_HEADERS` (multilingual header vocabulary), in source order. -/
def SECTION_HEADERS : List String :=
  [ "entrees", "entrées", "mains", "main courses", "main", "specialties",
    "specialities", "plates", "plats", "platos", "secondi", "secondi piatti",
    "piatti principali", "a la carte", "a la carte menu", "from the grill",
    "chef's specials", "house specialties", "signature dishes", "featured items",
    "plats principaux", "plats", "spécialités", "specialites", "à la carte",
    "secondi", "piatti principali", "specialità", "specialita", "alla griglia",
    "platos principales", "platos", "especialidades", "a la carta" ]

/-- `BLACKLISTED_TERMS`. -/
def BLACKLISTED_TERMS : List String :=
  [ "appetizers", "appetisers", "starters", "hors d'oeuvres", "soups", "salads",
    "sides", "side dishes", "desserts", "beverages", "drinks", "beer",
    "cocktails", "coffee", "breakfast", "lunch",
    "gluten free", "contains nuts", "dairy free", "mild",
    "first course", "second course", "third course", "main course",
    "ask server" ]

/-- `STOP_WORDS` (English and French articles/prepositions). -/
def STOP_WORDS : List String :=
  [ "a", "an", "and", "the", "of", "in", "on", "at", "to", "for", "with", "by",
    "from", "up", "about", "into", "through", "during", "before", "after",
    "above", "below", "between", "among", "under", "over", "around", "near",
    "le", "la", "les", "un", "une", "des", "du", "de", "dans", "sur", "avec",
    "pour", "par", "sans", "sous", "entre", "chez", "vers", "depuis", "jusqu",
    "pendant" ]

/-- `FRENCH_DESCRIPTIVE_WORDS`. -/
def FRENCH_DESCRIPTIVE_WORDS : List String :=
  [ "avec", "servi", "garni", "frais", "local", "bio", "organique",
    "ail", "citron", "beurre", "pain", "miettes", "grillé", "baguette",
    "assaisonné", "mariné", "rôti", "grillé", "frit", "cuit à la vapeur",
    "accompagné", "arrosé", "sauté", "fini", "garni", "sauce", "jus",
    "cuit", "préparé", "mélangé", "haché", "coupé", "émincé", "tranché" ]

/-- `containsPrice(text)` with fresh regex state (each pattern searched from
position `0`): `PRICE_PATTERNS.some(pattern => pattern.test(text))`.  The
source's module-level pattern objects actually carry state; see
`containsPriceStateful` below. -/
def containsPrice (s : List Char) : Bool := PRICE_PATTERNS.any (fun re => reTest re s)

/-- `extractPrices(text)`: every match of every price pattern, in pattern
order. -/
def extractPrices (s : List Char) : List (List Char) :=
  PRICE_PATTERNS.flatMap (fun re => jsMatchAll re s)

/-- `isSectionHeader(text)`: case-insensitive containment in either direction
against `SECTION_HEADERS`. -/
def isSectionHeader (s : List Char) : Bool :=
  let normalizedText := lowerL (jsTrim s)
  SECTION_HEADERS.any fun h =>
    jsIncludes normalizedText h.data || jsIncludes h.data normalizedText

/-- `containsBlacklistedTerms(text)`: word-boundary, case-insensitive search
for each blacklisted term (`new RegExp('\\b' + term + '\\b', 'i')` on the
lowercased, trimmed text). -/
def containsBlacklistedTerms (s : List Char) : Bool :=
  let normalizedText := lowerL (jsTrim s)
  BLACKLISTED_TERMS.any fun term =>
    reTest (RE.seqs [RE.wb, RE.liti term.data, RE.wb]) normalizedText

/-- `countMeaningfulWords(text)`: non-empty lowercased words that are not
stop words. -/
def countMeaningfulWords (s : List Char) : Nat :=
  ((jsSplitWs (lowerL s)).filter fun w =>
    !w.isEmpty && !STOP_WORDS.any (fun t => t.data = w)).length

/-- `calculatePunctuationDensity(text)`: `[,;:]` count over
`max(length, 1)`. -/
def calculatePunctuationDensity (s : List Char) : ℚ :=
  ((s.filter (fun c => c = ',' || c = ';' || c = ':')).length : ℚ) /
    (max s.length 1 : ℚ)

/-- `isAllCaps(text)`: `text === text.toUpperCase() && /[A-Z]/.test(text)`. -/
def isAllCaps (s : List Char) : Bool := upperL s = s && s.any isAsciiUpperC

/-- `isTitleCase(text)`: every whitespace-separated word is empty or has an
upper first character and lower remainder (by JavaScript's `toUpperCase` /
`toLowerCase` on the respective slices). -/
def isTitleCase (s : List Char) : Bool :=
  (jsSplitWs s).all fun w =>
    match w with
    | [] => true
    | c :: rest => c = toUpperJS c && lowerL rest = rest

/-- `calculateLetterRatio(text)`: `[a-zA-Z]` count over `max(length, 1)`. -/
def calculateLetterRatio (s : List Char) : ℚ :=
  ((s.filter isAsciiLetterC).length : ℚ) / (max s.length 1 : ℚ)

/-- `calculateUppercaseRatio(text)`: `[A-Z]` count over `[a-zA-Z]` count, `0`
when there are no letters. -/
def calculateUppercaseRatio (s : List Char) : ℚ :=
  let letterCount := (s.filter isAsciiLetterC).length
  if 0 < letterCount then ((s.filter isAsciiUpperC).length : ℚ) / (letterCount : ℚ)
  else 0

/-- The article list of `startsWithArticle`. -/
def ARTICLES : List String :=
  [ "a", "an", "the", "le", "la", "les", "un", "une", "il", "lo", "la", "el",
    "los", "las" ]

/-- `startsWithArticle(text)`: the first whitespace-separated word of the
lowercased, trimmed text is an article. -/
def startsWithArticle (s : List Char) : Bool :=
  let firstWord := (jsSplitWs (jsTrim (lowerL s))).headD []
  ARTICLES.any fun t => t.data = firstWord

/-- `endsWithStopWord(text)`: the last whitespace-separated word of the
lowercased, trimmed text is a stop word. -/
def endsWithStopWord (s : List Char) : Bool :=
  let lastWord := ((jsSplitWs (jsTrim (lowerL s))).reverse).headD []
  STOP_WORDS.any fun t => t.data = lastWord

/-- `calculateAverageTokenLength(text)`. -/
def calculateAverageTokenLength (s : List Char) : ℚ :=
  let tokens := wordsOf s
  if tokens.isEmpty then 0
  else ((tokens.map List.length).sum : ℚ) / (tokens.length : ℚ)

/-! ### Embedding of `src/lib/candidates/priceRemoval.ts` (price normalizer) -/

/-- A currency word with optional plural `s`, case-insensitively:
one branch of `(?:euros?|dollars?|cents?|pounds?|yen)`. -/
def reCurrencyWord (w : String) (plural : Bool) : RE :=
  if plural then RE.seq (RE.liti w.data) (RE.opt (RE.cls fun d => toLowerJS d = 's'))
  else RE.liti w.data

/-- `COMPREHENSIVE_PRICE_PATTERNS`, in source order. -/
def COMPREHENSIVE_PRICE_PATTERNS : List RE :=
  [ -- /[$€£¥]\s?\d{1,4}(?:[.,]\d{2})?/g
    RE.seqs [RE.cls isCurrencyC, reSpaceOpt, reDigits 1 4, reDecimals],
    -- /\d{1,4}(?:[.,]\d{2})?\s?[$€£¥]/g
    RE.seqs [reDigits 1 4, reDecimals, reSpaceOpt, RE.cls isCurrencyC],
    -- /\d{1,3}(?:[.,]\d{2})/g
    RE.seqs [reDigits 1 3, RE.cls isDotCommaC, reDigits 2 2],
    -- /\d{1,4}(?:[.,]\d{2})?\s*$/g
    RE.seqs [reDigits 1 4, reDecimals, RE.star isSpaceC, RE.eos],
    -- /^\s*\d{1,4}(?:[.,]\d{2})?\s+/g
    RE.seqs [RE.bos, RE.star isSpaceC, reDigits 1 4, reDecimals, RE.plus isSpaceC],
    -- /\d{1,4}(?:[.,]\d{2})?\s*(?:euros?|dollars?|cents?|pounds?|yen)/gi
    RE.seqs [reDigits 1 4, reDecimals, RE.star isSpaceC,
      RE.alt (reCurrencyWord "euro" true)
        (RE.alt (reCurrencyWord "dollar" true)
          (RE.alt (reCurrencyWord "cent" true)
            (RE.alt (reCurrencyWord "pound" true) (reCurrencyWord "yen" false))))],
    -- /(?<!\w)\d{3,4}(?!\w)/g
    RE.seqs [RE.nlb isWordC, reDigits 3 4, RE.nla isWordC],
    -- /\d{1,4}\s*[.,]\s*\d{2}/g
    RE.seqs [reDigits 1 4, RE.star isSpaceC, RE.cls isDotCommaC, RE.star isSpaceC,
      reDigits 2 2],
    -- /\bmarket\s+price\b/gi
    marketPriceRE ]

/-- `/\b\d{3,4}\b/g` — the post-loop standalone-digit cleanup. -/
def standalone34RE : RE := RE.seqs [RE.wb, reDigits 3 4, RE.wb]

/-- `/\b\d{2,4}\b/` — the validator's standalone-number check. -/
def standalone24RE : RE := RE.seqs [RE.wb, reDigits 2 4, RE.wb]

/-- `replace(/[$€£¥]/g, '')`: a single-character class replaced globally by
the empty string removes exactly the characters of the class. -/
def stripCurrency (s : List Char) : List Char := s.filter (fun c => !isCurrencyC c)

/-- `replace(/\s+/g, ' ')`: each maximal whitespace run becomes one space.
The boolean tracks whether the previous character was whitespace. -/
def collapseWsGo : Bool → List Char → List Char
  | _, [] => []
  | prevWs, c :: rest =>
    if isSpaceC c then
      if prevWs then collapseWsGo true rest else ' ' :: collapseWsGo true rest
    else c :: collapseWsGo false rest

def collapseWs (s : List Char) : List Char := collapseWsGo false s

/-- `removeAllPrices(text)`: apply every comprehensive price pattern in order
(each as a global replace by the empty string), then strip standalone 3–4
digit numbers, then strip currency symbols, then collapse whitespace and
trim.  (The source's `console.log` debug branches have no effect on the
result.) -/
def removeAllPrices (s : List Char) : List Char :=
  let cleaned := COMPREHENSIVE_PRICE_PATTERNS.foldl (fun t re => jsReplace re [] t) s
  let cleaned := jsReplace standalone34RE [] cleaned
  let cleaned := stripCurrency cleaned
  jsTrim (collapseWs cleaned)

/-- `containsAnyPrice(text)` with fresh regex state:
`COMPREHENSIVE_PRICE_PATTERNS.some(p => p.test(text)) ||
/\bmarket\s+price\b/gi.test(text)` (the second regex is a fresh literal on
every call).  See `containsAnyPriceStateful` for the source's actual
module-level pattern state. -/
def containsAnyPrice (s : List Char) : Bool :=
  COMPREHENSIVE_PRICE_PATTERNS.any (fun re => reTest re s) || reTest marketPriceRE s

/-- `extractAllPrices(text)`: all matches of every comprehensive pattern,
then all matches of the market-price pattern. -/
def extractAllPrices (s : List Char) : List (List Char) :=
  COMPREHENSIVE_PRICE_PATTERNS.flatMap (fun re => jsMatchAll re s) ++
    jsMatchAll marketPriceRE s

/-- `validateNoPrices(text)`: no price pattern, no standalone 2–4-digit
number, no currency symbol, no market-price phrase. -/
def validateNoPrices (s : List Char) : Bool :=
  let hasPrices := containsAnyPrice s
  let hasStandaloneNumbers := reTest standalone24RE s
  let hasCurrencySymbols := s.any isCurrencyC
  let hasMarketPrice := reTest marketPriceRE s
  !hasPrices && !hasStandaloneNumbers && !hasCurrencySymbols && !hasMarketPrice

/-! ### Embedding of `src/lib/candidates/headers.ts` (header detector)

The only irrational quantity in the whole pipeline is the cosine similarity
(`Math.sqrt`).  Since the extractor consumes nothing of a detected header
beyond its text and line index — the stored confidence is never read — the
detector is embedded with an exact rational decision procedure for
`confidence > 0.5` (`calculateHeaderConfidenceGtHalf`), and the real-valued
score itself (`calculateHeaderConfidenceR`) is defined over `ℝ` and proved
equivalent to the decision procedure in the theorems below. -/

/-- `normalizeText(text)` of `headers.ts`: lowercase, trim, remove
`[^\w\s]`, collapse whitespace (no final trim). -/
def normalizeText (s : List Char) : List Char :=
  collapseWs ((jsTrim (lowerL s)).filter fun c => isWordC c || isSpaceC c)

/-- Distinct elements in order of first occurrence (the key set of
`createWordVector`, resp. the `Set` union of `calculateDotProduct`). -/
def distinctL : List (List Char) → List (List Char)
  | [] => []
  | w :: rest => w :: (distinctL rest).filter (fun v => v ≠ w)

/-- The term frequency of `w` in `ws` (`createWordVector`'s entry). -/
def wordCount (w : List Char) (ws : List (List Char)) : Nat :=
  (ws.filter (fun v => v = w)).length

/-- `calculateDotProduct` of the two frequency vectors. -/
def dotProductQ (ws1 ws2 : List (List Char)) : ℚ :=
  ((distinctL (ws1 ++ ws2)).map fun w =>
    (wordCount w ws1 : ℚ) * (wordCount w ws2 : ℚ)).sum

/-- The squared magnitude of a frequency vector (`calculateMagnitude` before
the square root). -/
def magSqQ (ws : List (List Char)) : ℚ :=
  ((distinctL ws).map fun w => (wordCount w ws : ℚ) * (wordCount w ws : ℚ)).sum

/-- Exact decision of `calculateSimilarity(str1, str2) > c` for a threshold
`c > 0`: the similarity is `dot / (√m1 · √m2)`, so for positive `c` the
comparison is `0 < dot ∧ c² · m1 · m2 < dot²`. -/
def similarityGt (str1 str2 : List Char) (c : ℚ) : Bool :=
  let words1 := wordsOf str1
  let words2 := wordsOf str2
  if words1.isEmpty || words2.isEmpty then decide ((0 : ℚ) > c)
  else
    let m1 := magSqQ words1
    let m2 := magSqQ words2
    if m1 = 0 || m2 = 0 then decide ((0 : ℚ) > c)
    else
      let dot := dotProductQ words1 words2
      decide (0 < dot ∧ c ^ 2 * (m1 * m2) < dot ^ 2)

/-- `calculateSimilarity(str1, str2)` with an exact real square root in place
of `Math.sqrt`. -/
noncomputable def calculateSimilarityR (str1 str2 : List Char) : ℝ :=
  let words1 := wordsOf str1
  let words2 := wordsOf str2
  if words1.isEmpty || words2.isEmpty then 0
  else
    let magnitude1 := Real.sqrt (magSqQ words1 : ℝ)
    let magnitude2 := Real.sqrt (magSqQ words2 : ℝ)
    if magnitude1 = 0 ∨ magnitude2 = 0 then 0
    else (dotProductQ words1 words2 : ℝ) / (magnitude1 * magnitude2)

/-- The price test of `calculateHeaderConfidence`:
`/[$€£¥]\s?\d|^\d+[.,]\d{2}$/.test(line)`. -/
def headerPriceRE : RE :=
  RE.alt (RE.seqs [RE.cls isCurrencyC, reSpaceOpt, RE.cls isDigitC])
    (RE.seqs [RE.bos, RE.plus isDigitC, RE.cls isDotCommaC, reDigits 2 2, RE.eos])

/-- The food-word list of `calculateHeaderConfidence`. -/
def headerFoodWords : List String :=
  [ "chicken", "beef", "pork", "fish", "salmon", "pasta", "pizza", "soup",
    "salad", "bread", "rice", "noodles" ]

/-- The penalty term of `calculateHeaderConfidence(line)`: `0.5` if the line
has a price, `0.3` if the normalized line has more than `4` words, `0.4` if
it contains a common food word. -/
def headerPenalty (line : List Char) : ℚ :=
  let normalizedLine := normalizeText line
  let hasPrice := reTest headerPriceRE line
  let wordCnt := (wordsOf normalizedLine).length
  let isShort := wordCnt ≤ 4
  let containsFoodWords := headerFoodWords.any fun w => jsIncludes normalizedLine w.data
  (if hasPrice then (0.5 : ℚ) else 0) + (if isShort then 0 else (0.3 : ℚ)) +
    (if containsFoodWords then (0.4 : ℚ) else 0)

/-- `calculateHeaderConfidence(line)` over `ℝ`:
`max 0 (maxSimilarity − penalty)`, with `maxSimilarity` the fold of
`Math.max` over the similarity to every vocabulary entry, starting at `0`. -/
noncomputable def calculateHeaderConfidenceR (line : List Char) : ℝ :=
  let normalizedLine := normalizeText line
  let maxSimilarity :=
    SECTION_HEADERS.foldl (fun m h => max m (calculateSimilarityR normalizedLine h.data))
      (0 : ℝ)
  max 0 (maxSimilarity - (headerPenalty line : ℝ))

/-- Exact decision of `calculateHeaderConfidence(line) > 0.5`: some vocabulary
entry has similarity above `0.5` plus the penalty. -/
def calculateHeaderConfidenceGtHalf (line : List Char) : Bool :=
  let normalizedLine := normalizeText line
  let c := (0.5 : ℚ) + headerPenalty line
  SECTION_HEADERS.any fun h => similarityGt normalizedLine h.data c

/-- A detected section header.  The source also stores the line's confidence
score; that score is never read by any consumer (`findNearestHeaderAbove`,
`isUnderEntreeHeader`, `getHeaderContext`, `checkPrevLineHeader` use only
`text` and `lineIndex`), and being irrational it is kept outside the record:
it is `calculateHeaderConfidenceR text`. -/
structure SectionHeader where
  text : List Char
  lineIndex : Nat
deriving DecidableEq, Repr

/-- `detectSectionHeaders(lines)`: every non-blank (after trim) line whose
header confidence exceeds `0.5`, with its trimmed text and line index, in
line order. -/
def detectSectionHeaders (lines : List (List Char)) : List SectionHeader :=
  lines.enum.filterMap fun p =>
    let line := jsTrim p.2
    if line.isEmpty then none
    else if calculateHeaderConfidenceGtHalf line then
      some { text := line, lineIndex := p.1 }
    else none

/-- `findNearestHeaderAbove(lineIndex, headers, maxDistance = 10)`: the
closest header strictly above within the window (the source folds over the
list keeping the strictly smaller distance). -/
def findNearestHeaderAbove (lineIndex : Nat) (headers : List SectionHeader)
    (maxDistance : Nat := 10) : Option SectionHeader :=
  headers.foldl
    (fun best h =>
      if h.lineIndex < lineIndex then
        let distance := lineIndex - h.lineIndex
        match best with
        | none => if distance ≤ maxDistance then some h else none
        | some b =>
          if distance ≤ maxDistance ∧ distance < lineIndex - b.lineIndex then some h
          else best
      else best)
    none

/-- The entree keyword list of `isUnderEntreeHeader`. -/
def entreeKeywords : List String :=
  [ "entree", "entrées", "mains", "main courses", "secondi", "piatti principali",
    "plats principaux", "platos principales" ]

/-- `isUnderEntreeHeader(lineIndex, headers)`. -/
def isUnderEntreeHeader (lineIndex : Nat) (headers : List SectionHeader) : Bool :=
  match findNearestHeaderAbove lineIndex headers with
  | none => false
  | some nearestHeader =>
    let headerText := lowerL nearestHeader.text
    entreeKeywords.any fun k => jsIncludes headerText k.data

/-- `getHeaderContext(lineIndex, sectionHeaders)`: the first header in list
order that lies strictly above within 10 lines. -/
def getHeaderContext (lineIndex : Nat) (sectionHeaders : List SectionHeader) :
    Option (List Char) :=
  (sectionHeaders.find? fun h =>
    h.lineIndex < lineIndex && lineIndex - h.lineIndex ≤ 10).map SectionHeader.text

/-- `checkPrevLineHeader(allLines, lineIndex, sectionHeaders)`. -/
def checkPrevLineHeader (lineIndex : Nat) (sectionHeaders : List SectionHeader) : Bool :=
  if lineIndex = 0 then false
  else sectionHeaders.any fun h => h.lineIndex = lineIndex - 1

/-! ### Embedding of `src/lib/candidates/entreeLookup.ts` (dictionary lookup)

The Supabase store is an external collaborator; it is modelled as an abstract
interface whose four operations (the connection test and the three queries)
each either return data or fail (`Except Unit`), covering both query errors
and thrown exceptions — every failure path of the source funnels into the
same `null` result. -/

/-- One row of the `common_entrees` table, as read by `findEntreeMatch`.
(The `synonyms` column only appears inside the partial-match query filter,
which lives on the store side of the interface.) -/
structure EntreeRow where
  id : String
  entree_name : List Char
  category : Option String
  popularity_score : Option ℚ
deriving DecidableEq, Repr

inductive MatchType where
  | exact
  | partial'
  | fuzzy
deriving DecidableEq, Repr

/-- `EntreeMatch` (`match_type 'partial'` is spelled `partial'`). -/
structure EntreeMatch where
  id : String
  name : List Char
  normalized_name : List Char
  category : Option String
  popularity_score : Option ℚ
  confidence_boost : ℚ
  match_type : MatchType
deriving DecidableEq, Repr

/-- The abstract dictionary store: the connection test and the three queries
of `findEntreeMatch`, each fallible. -/
structure EntreeStore where
  connectionTest : Except Unit Unit
  exactQuery : List Char → Except Unit EntreeRow
  partialQuery : List Char → Except Unit (List EntreeRow)
  fuzzyQuery : Except Unit (List EntreeRow)

/-- One row of the Levenshtein matrix given the previous row: the input pairs
each character of `str1` with the cell directly above; `diag` and `left` are
the diagonal and left neighbours. -/
def levRowGo (c2 : Char) : List (Char × Nat) → Nat → Nat → List Nat
  | [], _, _ => []
  | (c1, above) :: rest, diag, left =>
    let cur := if c2 = c1 then diag else 1 + min diag (min above left)
    cur :: levRowGo c2 rest above cur

/-- `levenshteinDistance(str1, str2)` (dynamic programming, row by row, as in
the source's matrix loop). -/
def levenshteinDistance (str1 str2 : List Char) : Nat :=
  let initRow : List Nat := List.range (str1.length + 1)
  let finalRow := str2.foldl
    (fun row c2 =>
      match row with
      | [] => []
      | o0 :: orest => (o0 + 1) :: levRowGo c2 (str1.zip orest) o0 (o0 + 1))
    initRow
  finalRow.getLastD 0

/-- `calculatePartialMatchScore(text1, text2)`: normalized Levenshtein
similarity of the longer against the shorter string. -/
def calculatePartialMatchScore (text1 text2 : List Char) : ℚ :=
  let longer := if text1.length > text2.length then text1 else text2
  let shorter := if text1.length > text2.length then text2 else text1
  if longer.length = 0 then 1
  else ((longer.length : ℚ) - (levenshteinDistance longer shorter : ℚ)) /
    (longer.length : ℚ)

/-- `calculateWordSimilarity(word1, word2)`. -/
def calculateWordSimilarity (word1 word2 : List Char) : ℚ :=
  let distance := levenshteinDistance word1 word2
  let maxLength := max word1.length word2.length
  if maxLength = 0 then 1 else ((maxLength : ℚ) - (distance : ℚ)) / (maxLength : ℚ)

/-- `calculateFuzzyMatchScore(text1, text2)`: `0.7 ×` average best-per-token
similarity `+ 0.3 ×` fraction of tokens whose best match exceeds `0.7`. -/
def calculateFuzzyMatchScore (text1 text2 : List Char) : ℚ :=
  if text1.isEmpty || text2.isEmpty then 0
  else
    let words1 := (jsSplitWs text1).filter fun w => w.length > 2
    let words2 := (jsSplitWs text2).filter fun w => w.length > 2
    if words1.isEmpty || words2.isEmpty then 0
    else
      let acc := words1.foldl
        (fun (tm : ℚ × Nat) word1 =>
          let bestMatch := words2.foldl
            (fun best word2 => max best (calculateWordSimilarity word1 word2)) (0 : ℚ)
          (tm.1 + bestMatch, if bestMatch > (0.7 : ℚ) then tm.2 + 1 else tm.2))
        ((0 : ℚ), 0)
      let avgSimilarity := acc.1 / (words1.length : ℚ)
      let matchRat := (acc.2 : ℚ) / (words1.length : ℚ)
      avgSimilarity * (0.7 : ℚ) + matchRat * (0.3 : ℚ)

/-- `array.reduce((best, current) => score(current) > score(best) ? current :
best)` on a non-empty list. -/
def bestByScore (score : EntreeRow → ℚ) : List EntreeRow → Option EntreeRow
  | [] => none
  | r :: rest =>
    some (rest.foldl (fun best current =>
      if score current > score best then current else best) r)

/-- The query normalization of `findEntreeMatch`:
`text.toLowerCase().replace(/[^\w\s]/g, '').trim()`. -/
def normalizeQuery (text : List Char) : List Char :=
  jsTrim ((lowerL text).filter fun c => isWordC c || isSpaceC c)

/-- `findEntreeMatch(text)` against an abstract store.  The try/catch of the
source and every query-error branch produce `none`; nothing escapes to the
caller. -/
def findEntreeMatch (store : EntreeStore) (text : List Char) : Option EntreeMatch :=
  let normalized := normalizeQuery text
  match store.connectionTest with
  | .error _ => none
  | .ok _ =>
    match store.exactQuery normalized with
    | .ok exactMatch =>
      some { id := exactMatch.id, name := exactMatch.entree_name,
             normalized_name := exactMatch.entree_name,
             category := exactMatch.category,
             popularity_score := exactMatch.popularity_score,
             confidence_boost := (0.95 : ℚ), match_type := .exact }
    | .error _ =>
      let partialResult : Option EntreeMatch :=
        match store.partialQuery normalized with
        | .error _ => none
        | .ok partialMatches =>
          match bestByScore (fun r => calculatePartialMatchScore normalized r.entree_name)
              partialMatches with
          | none => none
          | some bestMatch =>
            let matchScore := calculatePartialMatchScore normalized bestMatch.entree_name
            if matchScore > (0.7 : ℚ) then
              some { id := bestMatch.id, name := bestMatch.entree_name,
                     normalized_name := bestMatch.entree_name,
                     category := bestMatch.category,
                     popularity_score := bestMatch.popularity_score,
                     confidence_boost := (0.8 : ℚ), match_type := .partial' }
            else none
      match partialResult with
      | some m => some m
      | none =>
        let words := (jsSplitWs normalized).filter fun w => w.length > 2
        if words.isEmpty then none
        else
          match store.fuzzyQuery with
          | .error _ => none
          | .ok fuzzyMatches =>
            match bestByScore (fun r => calculateFuzzyMatchScore normalized r.entree_name)
                fuzzyMatches with
            | none => none
            | some bestFuzzyMatch =>
              let fuzzyScore := calculateFuzzyMatchScore normalized bestFuzzyMatch.entree_name
              if fuzzyScore > (0.6 : ℚ) then
                some { id := bestFuzzyMatch.id, name := bestFuzzyMatch.entree_name,
                       normalized_name := bestFuzzyMatch.entree_name,
                       category := bestFuzzyMatch.category,
                       popularity_score := bestFuzzyMatch.popularity_score,
                       confidence_boost := (0.7 : ℚ), match_type := .fuzzy }
              else none

/-! ### Embedding of `src/lib/candidates/extractCandidates.ts` (extractor)

JavaScript truthiness: the source guards bounding boxes and confidences with
falsy checks (`!line.bbox`, `!line.bbox.h`, `!line.confidence` …), under
which a missing value and a zero value behave alike; both are modelled
(`Option` plus an explicit zero test).  `allLines.indexOf(line)` compares by
object identity and the extractor only ever calls it on `ocrLines[i]`, so it
is modelled by passing the index `i` explicitly.  `uuidv4()` ids are not
modelled.  The trained-weight cache (`getTrainedModelWeights`) is a
parameter: `none` models an absent/stale cache (heuristic mode), `some w` a
valid cached mapping; `Math.exp` of the trained sigmoid is an abstract
parameter `exp`. -/

structure OcrBox where
  x : ℚ
  y : ℚ
  w : ℚ
  h : ℚ
deriving DecidableEq, Repr

/-- One OCR line as read by the extractor (its `words` array is never
consumed by the extraction pipeline and is omitted). -/
structure OcrLine where
  text : List Char
  bbox : Option OcrBox
  confidence : Option ℚ
deriving DecidableEq, Repr

/-- `CandidateFeatures`: the fixed-schema numeric feature vector (flags are
`0`/`1`). -/
structure CandidateFeatures where
  tokenCount : ℚ
  hasDigits : ℚ
  hasCurrency : ℚ
  isAllCaps : ℚ
  isTitleCase : ℚ
  priceSameLine : ℚ
  priceNextLines1to3 : ℚ
  underEntreeHeader : ℚ
  punctDensity : ℚ
  nextLineDescription : ℚ
  prevLineHeader : ℚ
  uppercaseRatio : ℚ
  lettersRatio : ℚ
  avgTokenLen : ℚ
  startsWithArticle : ℚ
  endsWithStop : ℚ
  fontSizeRatio : ℚ
  confidence : ℚ
deriving DecidableEq, Repr

/-- `Candidate` (the `id` is a random uuid in the source and not modelled;
`priceContext` is always the empty list at every creation site). -/
structure Candidate where
  page : Nat
  text : List Char
  bbox : Option OcrBox
  headerContext : Option (List Char)
  priceContext : List (List Char)
  features : CandidateFeatures
  confidence : ℚ
  databaseMatch : Option EntreeMatch
deriving DecidableEq, Repr

/-- `calculateFontSizeRatio(line, allLines)`: this line's bbox height over
the average height of all lines with a positive height; `1.0` when the line
has no (or zero) height or no line has one. -/
def calculateFontSizeRatio (line : OcrLine) (allLines : List OcrLine) : ℚ :=
  match line.bbox with
  | none => 1
  | some bbox =>
    if bbox.h = 0 then 1
    else
      let heights := allLines.filterMap fun l =>
        match l.bbox with
        | none => none
        | some bb => if bb.h ≠ 0 ∧ bb.h > 0 then some bb.h else none
      if heights.isEmpty then 1
      else bbox.h / (heights.sum / (heights.length : ℚ))

/-- `isBoldText(line, allLines)`: below-average OCR confidence (falsy
confidence short-circuits to `false`) or an above-average font size. -/
def isBoldText (line : OcrLine) (allLines : List OcrLine) : Bool :=
  match line.confidence with
  | none => false
  | some confidence =>
    if confidence = 0 then false
    else
      let confidences := allLines.filterMap (·.confidence)
      if confidences.isEmpty then false
      else
        let avgConfidence := confidences.sum / (confidences.length : ℚ)
        let fontSizeRatio := calculateFontSizeRatio line allLines
        let isLowConfidence := confidence < avgConfidence * (0.8 : ℚ)
        let isLargerFont := fontSizeRatio > (1.1 : ℚ)
        isLowConfidence || isLargerFont

/-- `isAllCapsText(text)`: after dropping `[\s\-'&]`, non-empty, fixed by
`toUpperCase`, and containing an uppercase (possibly accented) letter. -/
def isAllCapsText (text : List Char) : Bool :=
  let cleanText := text.filter fun c =>
    !(isSpaceC c || c = '-' || c = '\'' || c = '&')
  !cleanText.isEmpty && upperL cleanText = cleanText &&
    cleanText.any fun c => isAsciiUpperC c || isAccentedUpperC c

/-- `calculateSpacingScore(line, allLines)` at index `i`: the vertical gap
above the line relative to the document's average positive gap.  A missing
or zero `y` (or a first line, or a previous line without box data) scores
`0`. -/
def calculateSpacingScore (line : OcrLine) (allLines : List OcrLine) (i : Nat) : ℚ :=
  match line.bbox with
  | none => 0
  | some bbox =>
    if bbox.y = 0 then 0
    else if i = 0 then 0
    else
      match allLines.get? (i - 1) with
      | none => 0
      | some prevLine =>
        match prevLine.bbox with
        | none => 0
        | some pb =>
          if pb.y = 0 ∨ pb.h = 0 then 0
          else
            let spacingAbove := bbox.y - (pb.y + pb.h)
            let gaps := ((allLines.zip allLines.tail).filterMap fun pr =>
              match pr.1.bbox, pr.2.bbox with
              | some prevBox, some curBox =>
                if prevBox.y = 0 ∨ prevBox.h = 0 ∨ curBox.y = 0 then none
                else
                  let spacing := curBox.y - (prevBox.y + prevBox.h)
                  if spacing > 0 then some spacing else none
              | _, _ => none)
            if gaps.isEmpty then 0
            else
              let avgSpacing := gaps.sum / (gaps.length : ℚ)
              let spacingRat := spacingAbove / avgSpacing
              if spacingRat > 2 then (0.2 : ℚ)
              else if spacingRat > (1.5 : ℚ) then (0.15 : ℚ)
              else if spacingRat > (1.2 : ℚ) then (0.1 : ℚ)
              else 0

/-- `calculateVisualHierarchyScore(line, allLines)` at index `i`: all-caps,
font size, boldness, price proximity (same line, then within two lines) and
spacing, capped at `1`. -/
def calculateVisualHierarchyScore (line : OcrLine) (allLines : List OcrLine)
    (i : Nat) : ℚ :=
  let s0 : ℚ := 0
  let s1 := s0 + (if isAllCapsText line.text then (0.5 : ℚ) else 0)
  let fontSizeRatio := calculateFontSizeRatio line allLines
  let s2 := s1 +
    (if fontSizeRatio > (1.5 : ℚ) then (0.4 : ℚ)
     else if fontSizeRatio > (1.3 : ℚ) then (0.35 : ℚ)
     else if fontSizeRatio > (1.1 : ℚ) then (0.25 : ℚ)
     else if fontSizeRatio > 1 then (0.15 : ℚ)
     else 0)
  let s3 := s2 + (if isBoldText line allLines then (0.3 : ℚ) else 0)
  let s4 := s3 + (if containsAnyPrice line.text then (0.3 : ℚ) else 0)
  let hasNearbyPrice := allLines.enum.any fun p =>
    decide (i - 2 ≤ p.1) && decide (p.1 < i + 3) && decide (p.1 ≠ i) &&
      containsAnyPrice p.2.text
  let s5 := s4 + (if hasNearbyPrice then (0.15 : ℚ) else 0)
  let s6 := s5 + calculateSpacingScore line allLines i
  min 1 s6

/-- The invalid leading words of `isValidEntreeName`. -/
def invalidStartWords : List String :=
  [ "and", "or", "with", "including", "served", "topped", "garnished" ]

/-- `isValidEntreeName(text)`: no invalid leading word, no mid-string
`[.,]` followed by whitespace, at least 4 characters and 2 words, and no
remaining prices (`validateNoPrices`). -/
def isValidEntreeName (text : List Char) : Bool :=
  let normalizedText := jsTrim (lowerL text)
  let startsWithInvalid := invalidStartWords.any fun word =>
    startsWithL normalizedText (word.data ++ [' '])
  if startsWithInvalid then false
  else if reTest (RE.seq (RE.cls isDotCommaC) (RE.cls isSpaceC)) text then false
  else if normalizedText.length < 4 then false
  else if (wordsOf normalizedText).length < 2 then false
  else validateNoPrices text

/-- The English descriptive-word list of `isDescriptionText` (combined with
`FRENCH_DESCRIPTIVE_WORDS` at the use site). -/
def descriptiveWords : List String :=
  [ "with", "served", "topped", "garnished", "fresh", "local", "organic",
    "garlic", "lemon", "butter", "sourdough", "crumbs", "grilled", "baguette",
    "seasoned", "marinated", "roasted", "grilled", "fried", "steamed",
    "accompanied", "drizzled", "sprinkled", "finished", "garnished" ]

/-- The dish-noun anchor list of `isDescriptionText`'s clear-entree
exception. -/
def clearEntreeNouns : List String :=
  [ "crab", "scallop", "cake", "steak", "ribs", "skins", "platter", "newburg" ]

/-- The class `[A-ZÀÁÂÃÄÅÆÇÈÉÊËÌÍÎÏÐÑÒÓÔÕÖØÙÚÛÜÝÞ\s\-'&]`. -/
def isAllCapsLineC (c : Char) : Bool :=
  isAsciiUpperC c || isAccentedUpperC c || isSpaceC c || c = '-' || c = '\'' || c = '&'

/-- `/^[A-ZÀ…Þ\s\-'&]+$/.test(t) && t.length > 3` — the all-caps-line test
used on the previous/next line by `isDescriptionText`. -/
def isAllCapsLine (t : List Char) : Bool :=
  (!t.isEmpty && t.all isAllCapsLineC) && t.length > 3

/-- `isDescriptionText(text, lineIndex, allLines)`. -/
def isDescriptionText (text : List Char) (lineIndex : Nat)
    (allLines : List (List Char)) : Bool :=
  let normalizedText := jsTrim (lowerL text)
  let words := wordsOf normalizedText
  let isLong := words.length > 6
  let hasNoPrice := !containsAnyPrice text
  let commaCount := (text.filter (fun c => c = ',')).length
  let hasHighCommaDensity := commaCount ≥ 2 || (commaCount > 0 && words.length > 4)
  let allDescriptiveWords := descriptiveWords ++ FRENCH_DESCRIPTIVE_WORDS
  let containsDescriptiveWords := allDescriptiveWords.any fun w =>
    jsIncludes normalizedText w.data
  let prevLine := if lineIndex > 0 then jsTrim (allLines.getD (lineIndex - 1) []) else []
  let prevLineIsShorter := (prevLine.length : ℚ) < (text.length : ℚ) * (0.8 : ℚ)
  let prevLineIsAllCaps := isAllCapsLine prevLine
  let nextLine :=
    if lineIndex + 1 < allLines.length then jsTrim (allLines.getD (lineIndex + 1) [])
    else []
  let nextLineHasPrice := containsAnyPrice nextLine
  let nextLineIsAllCaps := isAllCapsLine nextLine
  let isShortSimpleEntree :=
    words.length ≤ 3 && !containsDescriptiveWords && !hasHighCommaDensity
  let isClearEntreeName :=
    words.length ≤ 5 && !containsDescriptiveWords && !hasHighCommaDensity &&
      words.any fun w => clearEntreeNouns.any fun n => n.data = lowerL w
  hasNoPrice && !isShortSimpleEntree && !isClearEntreeName &&
    ((isLong && containsDescriptiveWords) ||
     hasHighCommaDensity ||
     (prevLineIsShorter && nextLineHasPrice) ||
     (prevLineIsAllCaps && isLong) ||
     (prevLineIsAllCaps && nextLineIsAllCaps && isLong))

/-- `/^[A-Z][a-z]+(\s+[A-Z][a-z]+)*$/.test(text)` (case-sensitive): the text
splits into whitespace-separated words with no leading/trailing whitespace,
each an ASCII uppercase letter followed by one or more lowercase letters.
(The group star is outside the `RE` engine; this structural reading is
exactly the language of that regex.) -/
def isTitleCaseStrict (text : List Char) : Bool :=
  let ws := jsSplitWs text
  ws.all (fun w =>
    match w with
    | [] => false
    | c :: rest => isAsciiUpperC c && !rest.isEmpty && rest.all isAsciiLowerC)

/-- `/^[A-Z\s]+$/.test(text)`. -/
def isAllCapsStrict (text : List Char) : Bool :=
  !text.isEmpty && text.all fun c => isAsciiUpperC c || isSpaceC c

/-- Alternation of case-insensitive literal words. -/
def reWordAlts : List String → RE
  | [] => RE.cls fun _ => false
  | [w] => RE.liti w.data
  | w :: ws => RE.alt (RE.liti w.data) (reWordAlts ws)

/-- The venue-word alternation `(Restaurant|Cafe|Bistro|Grill|Kitchen|Dining|Eatery|Bar|Lounge)`. -/
def venueWords : RE :=
  reWordAlts ["Restaurant", "Cafe", "Bistro", "Grill", "Kitchen", "Dining",
    "Eatery", "Bar", "Lounge"]

/-- Under the `/i` flag, `[A-Z]` and `[a-z]` both mean any ASCII letter. -/
def reLetter : RE := RE.cls isAsciiLetterC

/-- `restaurantPatterns`, in source order (all `/i`). -/
def restaurantPatterns : List RE :=
  [ -- /^[A-Z][a-z]*'?s\s+(Restaurant|…|Lounge)$/i
    RE.seqs [RE.bos, reLetter, RE.star isAsciiLetterC,
      RE.opt (reChar '\''), RE.cls (fun c => toLowerJS c = 's'), RE.plus isSpaceC,
      venueWords, RE.eos],
    -- /^[A-Z][a-z]+\s+&\s+[A-Z][a-z]+'?s$/i
    RE.seqs [RE.bos, reLetter, RE.plus isAsciiLetterC, RE.plus isSpaceC,
      reChar '&', RE.plus isSpaceC, reLetter, RE.plus isAsciiLetterC,
      RE.opt (reChar '\''), RE.cls (fun c => toLowerJS c = 's'), RE.eos],
    -- /^[A-Z][a-z]+\s+(Italian|…|American)\s+(Restaurant|…|Eatery)$/i
    RE.seqs [RE.bos, reLetter, RE.plus isAsciiLetterC, RE.plus isSpaceC,
      reWordAlts ["Italian", "French", "Chinese", "Mexican", "Thai", "Indian",
        "Japanese", "American"], RE.plus isSpaceC,
      reWordAlts ["Restaurant", "Cafe", "Bistro", "Grill", "Kitchen", "Dining",
        "Eatery"], RE.eos],
    -- /^[A-Z][a-z]+\s+[A-Z][a-z]+\s+(Restaurant|…|Lounge)$/i
    RE.seqs [RE.bos, reLetter, RE.plus isAsciiLetterC, RE.plus isSpaceC,
      reLetter, RE.plus isAsciiLetterC, RE.plus isSpaceC, venueWords, RE.eos],
    -- /^(The\s+)?[A-Z][a-z]+\s+(Restaurant|…|Lounge)$/i
    RE.seqs [RE.bos, RE.opt (RE.seq (RE.liti "The".data) (RE.plus isSpaceC)),
      reLetter, RE.plus isAsciiLetterC, RE.plus isSpaceC, venueWords, RE.eos] ]

/-- `isRestaurantNameOrHeader(text, lineIndex, sectionHeaders, allLines)`. -/
def isRestaurantNameOrHeader (text : List Char) (lineIndex : Nat)
    (sectionHeaders : List SectionHeader) (allLines : List (List Char)) : Bool :=
  if isSectionHeader text then true
  else
    let normalizedText := jsTrim (lowerL text)
    let words := wordsOf normalizedText
    let isShort := words.length ≤ 4
    let isEarly := (lineIndex : ℚ) < (allLines.length : ℚ) * (0.2 : ℚ)
    let isTitle := isTitleCaseStrict text
    let isCaps := isAllCapsStrict text
    let hasNoPrice := !containsAnyPrice text
    let hasSectionHeaderAfter := sectionHeaders.any fun header =>
      header.lineIndex > lineIndex && header.lineIndex ≤ lineIndex + 5
    let isRestaurantName :=
      isShort && isEarly && (isTitle || isCaps) && hasNoPrice && hasSectionHeaderAfter
    let matchesRestaurantPattern := restaurantPatterns.any fun re => reTest re text
    isRestaurantName || matchesRestaurantPattern ||
      isDescriptionText text lineIndex allLines

/-- JavaScript `.` (any character but a line terminator). -/
def isDotAnyC (c : Char) : Bool :=
  !(c = '\n' || c = '\r' || c.toNat = 0x2028 || c.toNat = 0x2029)

/-- `s` under the `/i` flag. -/
def reSi : RE := RE.cls fun c => toLowerJS c = 's'

/-- `[$€£¥]\s?\d{1,4}(?:[.,]\d{2})?` — the price part shared by
`detectCompoundMenuItems` and `splitLineByPrices`. -/
def compoundPriceRE : RE :=
  RE.seqs [RE.cls isCurrencyC, reSpaceOpt, reDigits 1 4, reDecimals]

/-- `/(.*?)\s*([$€£¥]\s?\d{1,4}(?:[.,]\d{2})?)\s*$/i` — the trailing-price
match of `detectCompoundMenuItems`. -/
def trailingPriceRE : RE :=
  RE.seqs [RE.group 1 (RE.lazyStar isDotAnyC), RE.star isSpaceC,
    RE.group 2 compoundPriceRE, RE.star isSpaceC, RE.eos]

/-- The nine `compoundPatterns` of `detectCompoundMenuItems`, in source
order; every `split` is `[match[1], match[2]]`. -/
def compoundPatterns : List RE :=
  [ -- /^(combination\s+platter)\s+(.+)$/i
    RE.seqs [RE.bos,
      RE.group 1 (RE.seqs [RE.liti "combination".data, RE.plus isSpaceC,
        RE.liti "platter".data]),
      RE.plus isSpaceC, RE.group 2 (RE.plus isDotAnyC), RE.eos],
    -- /^(.+?)\s+(.+?\s+rolls?)$/i
    RE.seqs [RE.bos, RE.group 1 (RE.lazyPlus isDotAnyC), RE.plus isSpaceC,
      RE.group 2 (RE.seqs [RE.lazyPlus isDotAnyC, RE.plus isSpaceC,
        RE.liti "roll".data, RE.opt reSi]), RE.eos],
    -- /^(.+?)\s+(.+?\s+pasta)$/i
    RE.seqs [RE.bos, RE.group 1 (RE.lazyPlus isDotAnyC), RE.plus isSpaceC,
      RE.group 2 (RE.seqs [RE.lazyPlus isDotAnyC, RE.plus isSpaceC,
        RE.liti "pasta".data]), RE.eos],
    -- /^(.+?)\s+(.+?\s+steak)$/i
    RE.seqs [RE.bos, RE.group 1 (RE.lazyPlus isDotAnyC), RE.plus isSpaceC,
      RE.group 2 (RE.seqs [RE.lazyPlus isDotAnyC, RE.plus isSpaceC,
        RE.liti "steak".data]), RE.eos],
    -- /^(.+?)\s+(.+?\s+salad)$/i
    RE.seqs [RE.bos, RE.group 1 (RE.lazyPlus isDotAnyC), RE.plus isSpaceC,
      RE.group 2 (RE.seqs [RE.lazyPlus isDotAnyC, RE.plus isSpaceC,
        RE.liti "salad".data]), RE.eos],
    -- /^(.+?)\s+(.+?\s+newburg)$/i
    RE.seqs [RE.bos, RE.group 1 (RE.lazyPlus isDotAnyC), RE.plus isSpaceC,
      RE.group 2 (RE.seqs [RE.lazyPlus isDotAnyC, RE.plus isSpaceC,
        RE.liti "newburg".data]), RE.eos],
    -- /^(.+?)\s+(greek\s+.+)$/i
    RE.seqs [RE.bos, RE.group 1 (RE.lazyPlus isDotAnyC), RE.plus isSpaceC,
      RE.group 2 (RE.seqs [RE.liti "greek".data, RE.plus isSpaceC,
        RE.plus isDotAnyC]), RE.eos],
    -- /^(.+?)\s+(kale\s+.+)$/i
    RE.seqs [RE.bos, RE.group 1 (RE.lazyPlus isDotAnyC), RE.plus isSpaceC,
      RE.group 2 (RE.seqs [RE.liti "kale".data, RE.plus isSpaceC,
        RE.plus isDotAnyC]), RE.eos],
    -- /^([a-z]+\s+[a-z]+)\s+([a-z]+\s+[a-z]+(?:\s+[a-z]+)?)$/i
    RE.seqs [RE.bos,
      RE.group 1 (RE.seqs [RE.plus isAsciiLetterC, RE.plus isSpaceC,
        RE.plus isAsciiLetterC]),
      RE.plus isSpaceC,
      RE.group 2 (RE.seqs [RE.plus isAsciiLetterC, RE.plus isSpaceC,
        RE.plus isAsciiLetterC,
        RE.opt (RE.seq (RE.plus isSpaceC) (RE.plus isAsciiLetterC))]),
      RE.eos] ]

/-- `detectCompoundMenuItems(text)`: extract a trailing price, try the
compound patterns in order on the base text; the first whose two captures
survive validation (each trimmed to at least 3 characters and containing a
letter) yields the two items with the price re-attached; otherwise the
original text alone. -/
def detectCompoundMenuItems (text : List Char) : List (List Char) :=
  let priceMatch := jsExecFirst trailingPriceRE text
  let baseText :=
    match priceMatch with
    | some (right, _, caps) => jsTrim (capText right caps 1)
    | none => text
  let price : List Char :=
    match priceMatch with
    | some (right, _, caps) => jsTrim (capText right caps 2)
    | none => []
  let firstSplit := compoundPatterns.foldl
    (fun (found : Option (List Char × List Char)) pattern =>
      match found with
      | some _ => found
      | none =>
        match jsExecFirst pattern baseText with
        | none => none
        | some (right, _, caps) =>
          let item0 := capText right caps 1
          let item1 := capText right caps 2
          if (jsTrim item0).length ≥ 3 && (jsTrim item1).length ≥ 3 &&
              item0.any isAsciiLetterC && item1.any isAsciiLetterC then
            some (item0, item1)
          else none)
    none
  match firstSplit with
  | some items =>
    [jsTrim items.1 ++ (if price.isEmpty then [] else ' ' :: price),
     jsTrim items.2 ++ (if price.isEmpty then [] else ' ' :: price)]
  | none => [text]

/-- The class `[A-Za-z\s\-'&]` of `menuItemWithPricePattern`. -/
def isNameClsC (c : Char) : Bool :=
  isAsciiLetterC c || isSpaceC c || c = '-' || c = '\'' || c = '&'

/-- `/([A-Za-z][A-Za-z\s\-'&]+?)\s*([$€£¥]\s?\d{1,4}(?:[.,]\d{2})?)/g`. -/
def menuItemWithPriceRE : RE :=
  RE.seqs [RE.group 1 (RE.seq (RE.cls isAsciiLetterC) (RE.lazyPlus isNameClsC)),
    RE.star isSpaceC, RE.group 2 compoundPriceRE]

/-- The fallback `pricePattern` of `splitLineByPrices`:
`/(?<!\w)(?:[$€£¥])\s?\d{1,4}(?:[.,]\d{2})?(?!\w)|(?<!\w)\d{1,3}(?:[.,]\d{2})(?!\w)|(?<!\w)\d{1,4}(?:[.,]\d{2})?\s*$/g`. -/
def splitPricePatternRE : RE :=
  RE.alt
    (RE.seqs [RE.nlb isWordC, RE.cls isCurrencyC, reSpaceOpt, reDigits 1 4,
      reDecimals, RE.nla isWordC])
    (RE.alt
      (RE.seqs [RE.nlb isWordC, reDigits 1 3, RE.cls isDotCommaC, reDigits 2 2,
        RE.nla isWordC])
      (RE.seqs [RE.nlb isWordC, reDigits 1 4, reDecimals, RE.star isSpaceC, RE.eos]))

/-- The class `[^\w\s\-'&]` of the fallback cleanup. -/
def isPunctRunC (c : Char) : Bool :=
  !(isWordC c || isSpaceC c || c = '-' || c = '\'' || c = '&')

/-- `/^[^\w\s\-'&]+|[^\w\s\-'&]+$/g`. -/
def edgePunctRE : RE :=
  RE.alt (RE.seq RE.bos (RE.plus isPunctRunC)) (RE.seq (RE.plus isPunctRunC) RE.eos)

/-- `/\s+[^\w\s\-'&]+\s+/g`. -/
def midPunctRE : RE :=
  RE.seqs [RE.plus isSpaceC, RE.plus isPunctRunC, RE.plus isSpaceC]

/-- The class `[\d\s\$€£¥\.\,\-\/]` (digits, whitespace, currency, dot,
comma, hyphen, slash). -/
def isPriceJunkC (c : Char) : Bool :=
  isDigitC c || isSpaceC c || isCurrencyC c || c = '.' || c = ',' || c = '-' ||
    c = '/'

/-- `splitLineByPrices(line)`: trimmed text plus bbox per produced part. -/
def splitLineByPrices (line : OcrLine) : List (List Char × Option OcrBox) :=
  let text := jsTrim line.text
  let prices := extractAllPrices text
  if prices.isEmpty then [(text, line.bbox)]
  else
    let results := (jsExecAll menuItemWithPriceRE text).filterMap fun m =>
      let menuItemName := jsTrim (capText m.1 m.2.2 1)
      if menuItemName.length ≥ 3 && menuItemName.any isAsciiLetterC then
        some (menuItemName, line.bbox)
      else none
    if !results.isEmpty then results
    else
      let compoundMenuItems := detectCompoundMenuItems text
      if compoundMenuItems.length > 1 then
        compoundMenuItems.map fun item => (item, line.bbox)
      else
        let parts := ((jsSplit splitPricePatternRE text).map jsTrim).filter
          fun part => !part.isEmpty
        if parts.length ≤ 1 then [(text, line.bbox)]
        else
          let fallbackResults := parts.filterMap fun part =>
            if part.length < 2 || (!part.isEmpty && part.all isPriceJunkC) then none
            else if (jsTrim part).length < 3 then none
            else
              let cleanText :=
                jsTrim (jsReplace midPunctRE " ".data
                  (collapseWs (jsReplace edgePunctRE [] part)))
              if cleanText.length ≥ 2 && cleanText.any isAsciiLetterC &&
                  isValidEntreeName cleanText then
                some (cleanText, line.bbox)
              else none
          if !fallbackResults.isEmpty then fallbackResults else [(text, line.bbox)]

/-- `checkPriceInNextLines(allLines, lineIndex, maxLines)`. -/
def checkPriceInNextLines (allLines : List (List Char)) (lineIndex maxLines : Nat) :
    Bool :=
  (List.range maxLines).any fun k =>
    let j := lineIndex + k + 1
    decide (j < allLines.length) &&
      (let nextLine := jsTrim (allLines.getD j [])
       !nextLine.isEmpty && containsAnyPrice nextLine)

/-- `/\b(and|with|served|topped|garnished|fresh|local|organic)\b/i`. -/
def ingredientWordsRE : RE :=
  RE.seqs [RE.wb, reWordAlts ["and", "with", "served", "topped", "garnished",
    "fresh", "local", "organic"], RE.wb]

/-- `checkNextLineDescription(allLines, lineIndex)`. -/
def checkNextLineDescription (allLines : List (List Char)) (lineIndex : Nat) : Bool :=
  if lineIndex + 1 < allLines.length then
    let nextLine := jsTrim (allLines.getD (lineIndex + 1) [])
    if nextLine.isEmpty then false
    else
      let hasPunctuation := nextLine.any fun c => c = ',' || c = ';' || c = ':'
      let isShorter :=
        (nextLine.length : ℚ) < ((allLines.getD lineIndex []).length : ℚ) * (0.8 : ℚ)
      let hasIngredients := reTest ingredientWordsRE nextLine
      hasPunctuation && isShorter && hasIngredients
  else false

/-- `extractFeatures(text, allLines, lineIndex, sectionHeaders, ocrLines)`. -/
def extractFeatures (text : List Char) (allLines : List (List Char))
    (lineIndex : Nat) (sectionHeaders : List SectionHeader)
    (ocrLines : List OcrLine) : CandidateFeatures :=
  let hasCurrency := containsAnyPrice text
  { tokenCount := (countMeaningfulWords text : ℚ)
    hasDigits := if text.any isDigitC then 1 else 0
    hasCurrency := if hasCurrency then 1 else 0
    isAllCaps := if isAllCaps text then 1 else 0
    isTitleCase := if isTitleCase text then 1 else 0
    priceSameLine := if hasCurrency then 1 else 0
    priceNextLines1to3 := if checkPriceInNextLines allLines lineIndex 3 then 1 else 0
    underEntreeHeader := if isUnderEntreeHeader lineIndex sectionHeaders then 1 else 0
    punctDensity := calculatePunctuationDensity text
    nextLineDescription := if checkNextLineDescription allLines lineIndex then 1 else 0
    prevLineHeader := if checkPrevLineHeader lineIndex sectionHeaders then 1 else 0
    uppercaseRatio := calculateUppercaseRatio text
    lettersRatio := calculateLetterRatio text
    avgTokenLen := calculateAverageTokenLength text
    startsWithArticle := if startsWithArticle text then 1 else 0
    endsWithStop := if endsWithStopWord text then 1 else 0
    fontSizeRatio :=
      match ocrLines.get? lineIndex with
      | some l => calculateFontSizeRatio l ocrLines
      | none => 1
    confidence := 0 }

/-- `features[key]` of the trained scorer (`|| 0` maps an unknown key to
`0`). -/
def featureValue (f : CandidateFeatures) : String → ℚ
  | "tokenCount" => f.tokenCount
  | "hasDigits" => f.hasDigits
  | "hasCurrency" => f.hasCurrency
  | "isAllCaps" => f.isAllCaps
  | "isTitleCase" => f.isTitleCase
  | "priceSameLine" => f.priceSameLine
  | "priceNextLines1to3" => f.priceNextLines1to3
  | "underEntreeHeader" => f.underEntreeHeader
  | "punctDensity" => f.punctDensity
  | "nextLineDescription" => f.nextLineDescription
  | "prevLineHeader" => f.prevLineHeader
  | "uppercaseRatio" => f.uppercaseRatio
  | "lettersRatio" => f.lettersRatio
  | "avgTokenLen" => f.avgTokenLen
  | "startsWithArticle" => f.startsWithArticle
  | "endsWithStop" => f.endsWithStop
  | "fontSizeRatio" => f.fontSizeRatio
  | "confidence" => f.confidence
  | _ => 0

/-- The trained-weight mapping: feature name to signed weight. -/
abbrev TrainedWeights := List (String × ℚ)

/-- `calculateTrainedConfidenceScore(features, weights, databaseMatch)`:
`0.1` plus the dictionary boost plus `Σ featureValue · weight`, squashed by
the sigmoid `1 / (1 + exp(−score))` and clamped to `[0,1]`.  `exp` abstracts
`Math.exp` (in JavaScript `exp` is non-negative, so the denominator is
positive; over `ℚ` a zero denominator would give `0`, still inside the
clamp). -/
def calculateTrainedConfidenceScore (features : CandidateFeatures)
    (weights : TrainedWeights) (databaseMatch : Option EntreeMatch)
    (exp : ℚ → ℚ) : ℚ :=
  let score0 : ℚ := 0.1 +
    (match databaseMatch with
     | some m => m.confidence_boost
     | none => 0)
  let score := weights.foldl
    (fun s kw => s + featureValue features kw.1 * kw.2) score0
  let normalizedScore := 1 / (1 + exp (-score))
  max 0 (min 1 normalizedScore)

/-- `calculateConfidenceScore(features, databaseMatch)`: the dictionary
boost, then — when a valid trained-weight cache exists — the trained score,
otherwise the fixed heuristic weights, clamped to `[0,1]`. -/
def calculateConfidenceScore (features : CandidateFeatures)
    (databaseMatch : Option EntreeMatch) (trainedWeights : Option TrainedWeights)
    (exp : ℚ → ℚ) : ℚ :=
  let score : ℚ := 0.1 +
    (match databaseMatch with
     | some m => m.confidence_boost
     | none => 0)
  match trainedWeights with
  | some w => calculateTrainedConfidenceScore features w databaseMatch exp
  | none =>
    let score := score +
      (if 2 ≤ features.tokenCount ∧ features.tokenCount ≤ 6 then (0.3 : ℚ)
       else if features.tokenCount = 1 ∨ features.tokenCount > 8 then -(0.2 : ℚ)
       else 0)
    let score := score + (if features.priceSameLine ≠ 0 then (0.2 : ℚ) else 0)
    let score := score + (if features.priceNextLines1to3 ≠ 0 then (0.15 : ℚ) else 0)
    let score := score + (if features.underEntreeHeader ≠ 0 then (0.25 : ℚ) else 0)
    let score := score + (if features.isTitleCase ≠ 0 then (0.2 : ℚ) else 0)
    let score := score + (if features.isAllCaps ≠ 0 then (0.35 : ℚ) else 0)
    let score := score +
      (if features.fontSizeRatio > (1.5 : ℚ) then (0.35 : ℚ)
       else if features.fontSizeRatio > (1.3 : ℚ) then (0.3 : ℚ)
       else if features.fontSizeRatio > (1.1 : ℚ) then (0.2 : ℚ)
       else if features.fontSizeRatio > 1 then (0.15 : ℚ)
       else if features.fontSizeRatio < (0.8 : ℚ) then -(0.15 : ℚ)
       else 0)
    let score := score + (if features.hasDigits ≠ 0 then -(0.3 : ℚ) else 0)
    let score := score + (if features.hasCurrency ≠ 0 then -(0.2 : ℚ) else 0)
    let score := score + (if features.punctDensity > (0.1 : ℚ) then -(0.15 : ℚ) else 0)
    let score := score + (if features.nextLineDescription ≠ 0 then (0.1 : ℚ) else 0)
    let score := score + (if features.lettersRatio < (0.7 : ℚ) then -(0.2 : ℚ) else 0)
    max 0 (min 1 score)

/-- The `text.includes(...)` disjunction guarding compound detection on the
high-visual-hierarchy path. -/
def vhCompoundTriggers : List String :=
  [ "Combination Platter", "Tomato Pasta", "Salmon Rolls", "Lobster Newburg",
    "Combination Platter Lobster Newburg", "Tomato Pasta Salmon Rolls",
    "Chicken Fajita", "Greek Steak", "Thai Chicken", "Kale Crunch" ]

/-- The `text.includes(...)` disjunction guarding compound detection on the
default path. -/
def defaultCompoundTriggers : List String :=
  [ "Combination Platter", "Tomato Pasta", "Salmon Rolls", "Lobster Newburg",
    "Combination Platter Lobster Newburg", "Tomato Pasta Salmon Rolls" ]

/-- The all-caps fast path of `extractCandidates`' loop body: `some cs`
means the line is consumed (emitting `cs`), `none` means fall through to the
next stage (the guard rejected). -/
def capsPath (lines : List (List Char)) (sectionHeaders : List SectionHeader)
    (ocrLines : List OcrLine) (store : EntreeStore)
    (trainedWeights : Option TrainedWeights) (exp : ℚ → ℚ) (pageNumber : Nat)
    (i : Nat) (line : OcrLine) (text : List Char)
    (visualHierarchyScore : ℚ) : Option (List Candidate) :=
  if isAllCapsText text then
    let cleanText := removeAllPrices text
    if cleanText.length < 3 then some []
    else
      let features := extractFeatures cleanText lines i sectionHeaders ocrLines
      let databaseMatch := findEntreeMatch store cleanText
      let baseConfidence :=
        calculateConfidenceScore features databaseMatch trainedWeights exp
      let boostedConfidence :=
        min 1 (baseConfidence + (0.4 : ℚ) + visualHierarchyScore * (0.3 : ℚ))
      if boostedConfidence > (0.1 : ℚ) && isValidEntreeName cleanText then
        some [{ page := pageNumber, text := cleanText, bbox := line.bbox,
                headerContext := getHeaderContext i sectionHeaders,
                priceContext := [], features := features,
                confidence := boostedConfidence,
                databaseMatch := databaseMatch }]
      else none
  else none

/-- The high-visual-hierarchy path (compound split, then single candidate):
`some cs` consumes the line, `none` falls through to the default path. -/
def vhPath (lines : List (List Char)) (sectionHeaders : List SectionHeader)
    (ocrLines : List OcrLine) (store : EntreeStore)
    (trainedWeights : Option TrainedWeights) (exp : ℚ → ℚ) (pageNumber : Nat)
    (i : Nat) (line : OcrLine) (text : List Char)
    (visualHierarchyScore : ℚ) : Option (List Candidate) :=
  if visualHierarchyScore > (0.5 : ℚ) then
    let shouldCheckCompounds :=
      vhCompoundTriggers.any (fun t => jsIncludes text t.data) ||
        ((jsSplitWs text).length ≥ 4 && text.any isAsciiUpperC)
    let compoundResult : Option (List Candidate) :=
      if shouldCheckCompounds then
        let compoundMenuItems := detectCompoundMenuItems text
        if compoundMenuItems.length > 1 then
          some (compoundMenuItems.filterMap fun compoundItem =>
            let cleanItem := removeAllPrices compoundItem
            if cleanItem.length ≥ 3 then
              let features :=
                extractFeatures cleanItem lines i sectionHeaders ocrLines
              let databaseMatch := findEntreeMatch store cleanItem
              let baseConfidence :=
                calculateConfidenceScore features databaseMatch trainedWeights exp
              let boostedConfidence :=
                min 1 (baseConfidence + visualHierarchyScore * (0.4 : ℚ))
              if boostedConfidence > (0.1 : ℚ) && isValidEntreeName cleanItem then
                some { page := pageNumber, text := cleanItem, bbox := line.bbox,
                       headerContext := getHeaderContext i sectionHeaders,
                       priceContext := [], features := features,
                       confidence := boostedConfidence,
                       databaseMatch := databaseMatch }
              else none
            else none)
        else none
      else none
    match compoundResult with
    | some cs => some cs
    | none =>
      let cleanText := removeAllPrices text
      if cleanText.length < 3 then some []
      else
        let features := extractFeatures cleanText lines i sectionHeaders ocrLines
        let baseConfidence :=
          calculateConfidenceScore features none trainedWeights exp
        let boostedConfidence :=
          min 1 (baseConfidence + visualHierarchyScore * (0.4 : ℚ))
        if boostedConfidence > (0.1 : ℚ) && isValidEntreeName cleanText then
          some [{ page := pageNumber, text := cleanText, bbox := line.bbox,
                  headerContext := getHeaderContext i sectionHeaders,
                  priceContext := [], features := features,
                  confidence := boostedConfidence, databaseMatch := none }]
        else none
  else none

/-- The default path: price-based splitting, per-part price removal,
filtering, scoring and emission. -/
def defaultPath (lines : List (List Char)) (sectionHeaders : List SectionHeader)
    (ocrLines : List OcrLine) (store : EntreeStore)
    (trainedWeights : Option TrainedWeights) (exp : ℚ → ℚ) (pageNumber : Nat)
    (i : Nat) (line : OcrLine) (text : List Char) : List Candidate :=
  let lineParts := splitLineByPrices line
  let shouldCheckCompounds :=
    defaultCompoundTriggers.any fun t => jsIncludes text t.data
  let lineParts :=
    if shouldCheckCompounds then
      let compoundMenuItems := detectCompoundMenuItems text
      if compoundMenuItems.length > 1 then
        compoundMenuItems.map fun item => (removeAllPrices item, line.bbox)
      else lineParts
    else lineParts
  lineParts.filterMap fun part =>
    let partText := removeAllPrices part.1
    if partText.length < 2 || (!partText.isEmpty && partText.all isPriceJunkC)
    then none
    else if isRestaurantNameOrHeader partText i sectionHeaders lines then none
    else
      let features := extractFeatures partText lines i sectionHeaders ocrLines
      let databaseMatch := findEntreeMatch store partText
      let confidence :=
        calculateConfidenceScore features databaseMatch trainedWeights exp
      if confidence > (0.03 : ℚ) && isValidEntreeName partText then
        some { page := pageNumber, text := partText, bbox := part.2,
               headerContext := getHeaderContext i sectionHeaders,
               priceContext := [], features := features,
               confidence := confidence, databaseMatch := databaseMatch }
      else none

/-- The per-line body of `extractCandidates`' main loop: the candidates the
line at index `i` contributes, in emission order.  The all-caps and
high-visual-hierarchy fast paths fall through to the next stage exactly when
their gate (confidence and validity) rejects, as in the source. -/
def processLine (lines : List (List Char)) (sectionHeaders : List SectionHeader)
    (ocrLines : List OcrLine) (store : EntreeStore)
    (trainedWeights : Option TrainedWeights) (exp : ℚ → ℚ) (pageNumber : Nat)
    (i : Nat) (line : OcrLine) : List Candidate :=
  let text := jsTrim line.text
  if text.isEmpty || text.length < 2 then []
  else if containsBlacklistedTerms text || isSectionHeader text then []
  else if isRestaurantNameOrHeader text i sectionHeaders lines then []
  else
    let visualHierarchyScore := calculateVisualHierarchyScore line ocrLines i
    match capsPath lines sectionHeaders ocrLines store trainedWeights exp
        pageNumber i line text visualHierarchyScore with
    | some cs => cs
    | none =>
      match vhPath lines sectionHeaders ocrLines store trainedWeights exp
          pageNumber i line text visualHierarchyScore with
      | some cs => cs
      | none =>
        defaultPath lines sectionHeaders ocrLines store trainedWeights exp
          pageNumber i line text

/-- `extractCandidates(ocrLines, pageNumber, topN)`: run the per-line
pipeline over the lines in order, sort the emitted candidates by confidence
descending (a stable sort, as `Array.prototype.sort` is) and keep the first
`topN`. -/
def extractCandidates (ocrLines : List OcrLine) (pageNumber : Nat)
    (topN : Nat) (store : EntreeStore) (trainedWeights : Option TrainedWeights)
    (exp : ℚ → ℚ) : List Candidate :=
  let lines := ocrLines.map (·.text)
  let sectionHeaders := detectSectionHeaders lines
  let candidates := ocrLines.enum.flatMap fun p =>
    processLine lines sectionHeaders ocrLines store trainedWeights exp pageNumber
      p.1 p.2
  (candidates.insertionSort fun a b => b.confidence ≤ a.confidence).take topN

/-! ### The stateful behaviour of the module-level `g`-flagged patterns

`PRICE_PATTERNS` and `COMPREHENSIVE_PRICE_PATTERNS` are module-level arrays
of `g`-flagged regex objects.  `RegExp.prototype.test` on such an object
starts searching at its mutable `lastIndex`, advances it past a match, and
resets it to `0` on failure — so `containsPrice` and `containsAnyPrice` are
stateful across calls.  The state is one `lastIndex` per pattern. -/

abbrev PatternState := List Nat

/-- The state at module load: every `lastIndex` is `0`. -/
def initState (patterns : List RE) : PatternState := patterns.map fun _ => 0

/-- `patterns.some(p => p.test(text))` over stateful pattern objects:
short-circuits at the first success (whose `lastIndex` advances), resets the
`lastIndex` of every failing pattern tried before it, and leaves untried
patterns untouched. -/
def someTestStateful : List RE → PatternState → List Char → Bool × PatternState
  | [], st, _ => (false, st)
  | re :: res, st, s =>
    match st with
    | [] => (false, [])
    | li :: rest =>
      let tr := testFrom re li s
      if tr.1 then (true, tr.2 :: rest)
      else
        let br := someTestStateful res rest s
        (br.1, tr.2 :: br.2)

/-- Stateful `containsAnyPrice(text)`: the comprehensive patterns share
module state; the final `/\bmarket\s+price\b/gi` is a fresh literal on every
call (and is only evaluated when the `some` fails). -/
def containsAnyPriceStateful (st : PatternState) (s : List Char) :
    Bool × PatternState :=
  let pr := someTestStateful COMPREHENSIVE_PRICE_PATTERNS st s
  (pr.1 || reTest marketPriceRE s, pr.2)

/-- Stateful `containsPrice(text)` over `PRICE_PATTERNS`. -/
def containsPriceStateful (st : PatternState) (s : List Char) :
    Bool × PatternState :=
  someTestStateful PRICE_PATTERNS st s

/-! ### Claim-side definitions

These definitions transcribe the wording of spec claims (rather than the
source) and are only compared against the source embeddings. -/

/-- Modelled from the claim's wording (C1): a "standalone number of 2 or
more digits", i.e. a match of `\b\d{2,}\b` — a maximal digit run of length
at least two flanked by word boundaries. -/
def hasStandaloneNumber2Plus (s : List Char) : Bool :=
  reTest (RE.seqs [RE.wb, RE.cls isDigitC, RE.plus isDigitC, RE.wb]) s

/-- Modelled from the claim's wording (C6): the header score with the
word-count penalty applied to the line's *meaningful* words (stop words
excluded, per the Text Utilities' `countMeaningfulWords`) instead of all
words of the normalized line. -/
def headerPenaltyMeaningful (line : List Char) : ℚ :=
  let normalizedLine := normalizeText line
  let hasPrice := reTest headerPriceRE line
  let isShort := countMeaningfulWords line ≤ 4
  let containsFoodWords := headerFoodWords.any fun w => jsIncludes normalizedLine w.data
  (if hasPrice then (0.5 : ℚ) else 0) + (if isShort then 0 else (0.3 : ℚ)) +
    (if containsFoodWords then (0.4 : ℚ) else 0)

/-- Modelled from the claim's wording (C6): the real-valued header score
with the meaningful-word penalty. -/
noncomputable def headerScoreMeaningfulR (line : List Char) : ℝ :=
  let normalizedLine := normalizeText line
  let maxSimilarity :=
    SECTION_HEADERS.foldl (fun m h => max m (calculateSimilarityR normalizedLine h.data))
      (0 : ℝ)
  max 0 (maxSimilarity - (headerPenaltyMeaningful line : ℝ))

open Classical in
/-- The header detector stated over the real-valued score: keep exactly the
non-blank trimmed lines with `calculateHeaderConfidenceR > 0.5`, each with
its line index. -/
noncomputable def detectSectionHeadersR (lines : List (List Char)) :
    List SectionHeader :=
  lines.enum.filterMap fun p =>
    let line := jsTrim p.2
    if ¬line.isEmpty ∧ (1 : ℝ) / 2 < calculateHeaderConfidenceR line then
      some { text := line, lineIndex := p.1 }
    else none

/-- A store on which every operation fails (the unreachable dictionary). -/
def unreachableStore : EntreeStore :=
  { connectionTest := .error (), exactQuery := fun _ => .error (),
    partialQuery := fun _ => .error (), fuzzyQuery := .error () }

/-- An OCR line with text only (no box, no confidence), as used by the
concrete witnesses below. -/
def mkLine (s : String) : OcrLine := { text := s.data, bbox := none, confidence := none }

/-- A zero candidate, used only as the default value when reading the head
of a concrete extraction result in the witnesses below. -/
def defaultCandidate : Candidate :=
  { page := 0, text := [], bbox := none, headerContext := none,
    priceContext := [],
    features :=
      { tokenCount := 0, hasDigits := 0, hasCurrency := 0,
        isAllCaps := 0, isTitleCase := 0, priceSameLine := 0,
        priceNextLines1to3 := 0, underEntreeHeader := 0, punctDensity := 0,
        nextLineDescription := 0, prevLineHeader := 0, uppercaseRatio := 0,
        lettersRatio := 0, avgTokenLen := 0, startsWithArticle := 0,
        endsWithStop := 0, fontSizeRatio := 0, confidence := 0 },
    confidence := 0, databaseMatch := none }

/-- The two-line menu used by the concrete witnesses: an all-caps section
header followed by an entree line priced at the end. -/
def witnessLines : List OcrLine :=
  [mkLine "ENTREES", mkLine "Grilled Salmon Dinner $24"]

/-! ### A syntactic sufficient condition for "every match consumes a
character of class `p`" -/

/-- `NeedsCls p re` holds when every match of `re` must consume at least one
character satisfying `p`.  All the price patterns except the market-price
one satisfy `NeedsCls isDigitC`. -/
inductive NeedsCls (p : Char → Bool) : RE → Prop where
  | cls (q : Char → Bool) (h : ∀ c, q c = true → p c = true) : NeedsCls p (.cls q)
  | seqL (a b : RE) : NeedsCls p a → NeedsCls p (.seq a b)
  | seqR (a b : RE) : NeedsCls p b → NeedsCls p (.seq a b)
  | alt (a b : RE) : NeedsCls p a → NeedsCls p b → NeedsCls p (.alt a b)
  | rep (q : Char → Bool) (lo hi : Nat) (hlo : 1 ≤ lo)
      (h : ∀ c, q c = true → p c = true) : NeedsCls p (.rep q lo hi)
  | plus (q : Char → Bool) (h : ∀ c, q c = true → p c = true) : NeedsCls p (.plus q)
  | lazyPlus (q : Char → Bool) (h : ∀ c, q c = true → p c = true) :
      NeedsCls p (.lazyPlus q)
  | group (i : Nat) (a : RE) : NeedsCls p a → NeedsCls p (.group i a)

/-! ## Theorems -/

/-- C4: for every feature vector and optional dictionary match the heuristic
confidence score lies in `[0,1]`, and for every trained weight mapping (and
any behaviour of `Math.exp`) the sigmoid-squashed trained score lies in
`[0,1]`: both modes of `calculateConfidenceScore` end in a clamp
`max 0 (min 1 ·)`.  Instantiating `trainedWeights := none` gives the
heuristic mode, `some w` the trained mode. -/
theorem confidenceScore_mem_unitInterval (features : CandidateFeatures)
    (databaseMatch : Option EntreeMatch) (trainedWeights : Option TrainedWeights)
    (exp : ℚ → ℚ) :
    0 ≤ calculateConfidenceScore features databaseMatch trainedWeights exp ∧
      calculateConfidenceScore features databaseMatch trainedWeights exp ≤ 1 := by
  cases trainedWeights with
  | none =>
    refine ⟨le_max_left 0 _, max_le zero_le_one (min_le_left 1 _)⟩
  | some w =>
    show 0 ≤ calculateTrainedConfidenceScore features w databaseMatch exp ∧
      calculateTrainedConfidenceScore features w databaseMatch exp ≤ 1
    exact ⟨le_max_left 0 _, max_le zero_le_one (min_le_left 1 _)⟩

/-- C7 (counterexample): the Text Utilities price predicate `containsPrice`
returns `false` on the literal phrase `"market price"` — none of its six
`PRICE_PATTERNS` mentions the phrase (the market-price rule lives in the
price normalizer's `containsAnyPrice`), refuting the claim that the
predicate returns `true` for every text containing the phrase. -/
theorem containsPrice_marketPrice_false :
    containsPrice "market price".data = false := by decide

/-- C7 (amended): `containsPrice` recognizes currency-symbol+number for all
four currency symbols (`$ € £ ¥`), number+symbol for `€`, bare two-decimal
numbers, and numbers at line end — but not the phrase `"market price"`,
which is instead recognized by the price normalizer's `containsAnyPrice`. -/
theorem containsPrice_patterns_and_marketPrice :
    containsPrice "$12.00".data = true ∧
    containsPrice "€ 12,50".data = true ∧
    containsPrice "12€".data = true ∧
    containsPrice "£12.00".data = true ∧
    containsPrice "¥1200".data = true ∧
    containsPrice "soup 12.50 and more".data = true ∧
    containsPrice "soup 12".data = true ∧
    containsPrice "market price".data = false ∧
    containsAnyPrice "ask about the market price".data = true := by
  refine ⟨by decide, by decide, by decide, by decide, by decide, by decide,
    by decide, by decide, by decide⟩

/-- C5 (code bug): the price predicates are not deterministic functions of
their string argument.  The module-level `g`-flagged pattern objects carry a
mutable `lastIndex` which `RegExp.prototype.test` reads and advances, so two
successive calls on the same string can differ: from the module-load state,
`containsAnyPrice("12 eggs")` returns `true` and then `false`, and
`containsPrice("$5 x")` returns `true` and then `false`.  This refutes the
determinism claim for the extraction pipeline, which calls these predicates
throughout. -/
theorem priceParsers_stateful_nondeterministic :
    (let st0 := initState COMPREHENSIVE_PRICE_PATTERNS
     let r1 := containsAnyPriceStateful st0 "12 eggs".data
     let r2 := containsAnyPriceStateful r1.2 "12 eggs".data
     r1.1 = true ∧ r2.1 = false) ∧
    (let st0 := initState PRICE_PATTERNS
     let r1 := containsPriceStateful st0 "$5 x".data
     let r2 := containsPriceStateful r1.2 "$5 x".data
     r1.1 = true ∧ r2.1 = false) := by
  refine ⟨⟨by decide, by decide⟩, ⟨by decide, by decide⟩⟩

/-- C2 (counterexample): `removeAllPrices` is not idempotent.  On
`"a 12  $"` (two spaces before the currency symbol) no numeric pattern fires
— the two spaces defeat the `\s?` of `number+symbol` — so only the currency
symbol is stripped and whitespace collapsed, leaving `"a 12"`; a second
application now removes the trailing `12` (number-at-end pattern), giving
`"a"`. -/
theorem removeAllPrices_not_idempotent :
    removeAllPrices "a 12  $".data = "a 12".data ∧
      removeAllPrices (removeAllPrices "a 12  $".data) = "a".data := by
  refine ⟨by decide, by decide⟩

/-- C3 (counterexample): validator soundness fails.  `removeAllPrices` keeps
a mid-string standalone two-digit number (it only removes 3–4-digit
standalone numbers, decimals, edge numbers and currency-adjacent numbers),
while `validateNoPrices` rejects every standalone 2–4-digit number:
`removeAllPrices("a 12 b") = "a 12 b"` and `validateNoPrices("a 12 b") =
false`. -/
theorem validateNoPrices_removeAllPrices_false_at :
    validateNoPrices (removeAllPrices "a 12 b".data) = false := by decide

/-- A character of `collapseWsGo b s` is a character of `s` or a space. -/
lemma mem_collapseWsGo {c : Char} :
    ∀ (b : Bool) (s : List Char), c ∈ collapseWsGo b s → c ∈ s ∨ c = ' ' := by
  intro b s
  induction s generalizing b with
  | nil => intro h; exact absurd h (List.not_mem_nil c)
  | cons d rest ih =>
    intro h
    by_cases hd : isSpaceC d = true
    · by_cases hb : b = true
      · simp only [collapseWsGo, hd, hb, if_true] at h
        rcases ih true h with h' | h'
        · exact Or.inl (List.mem_cons_of_mem d h')
        · exact Or.inr h'
      · rw [Bool.not_eq_true] at hb
        simp only [collapseWsGo, hd, hb, if_true, Bool.false_eq_true, if_false] at h
        rcases List.mem_cons.mp h with h' | h'
        · exact Or.inr h'
        · rcases ih true h' with h'' | h''
          · exact Or.inl (List.mem_cons_of_mem d h'')
          · exact Or.inr h''
    · rw [Bool.not_eq_true] at hd
      simp only [collapseWsGo, hd, Bool.false_eq_true, if_false] at h
      rcases List.mem_cons.mp h with h' | h'
      · exact Or.inl (h' ▸ List.mem_cons_self d rest)
      · rcases ih false h' with h'' | h''
        · exact Or.inl (List.mem_cons_of_mem d h'')
        · exact Or.inr h''

/-- A character of `jsTrim s` is a character of `s`. -/
lemma mem_jsTrim {c : Char} {s : List Char} (h : c ∈ jsTrim s) : c ∈ s := by
  unfold jsTrim at h
  rw [List.mem_reverse] at h
  have h1 := (List.dropWhile_sublist (l := (s.dropWhile isSpaceC).reverse) isSpaceC).subset h
  rw [List.mem_reverse] at h1
  exact (List.dropWhile_sublist isSpaceC).subset h1

/-- The cleaned text of `removeAllPrices` never contains a currency symbol:
the currency-strip stage removes them all and the later stages introduce at
most spaces. -/
lemma removeAllPrices_currencyFree (t : List Char) :
    (removeAllPrices t).any isCurrencyC = false := by
  rw [List.any_eq_false]
  intro c hc
  have h1 : c ∈ collapseWs (stripCurrency
      (jsReplace standalone34RE []
        (COMPREHENSIVE_PRICE_PATTERNS.foldl (fun t re => jsReplace re [] t) t))) :=
    mem_jsTrim hc
  rcases mem_collapseWsGo false _ h1 with h2 | h2
  · have h3 := List.mem_filter.mp h2
    simpa using h3.2
  · subst h2; decide

/-- C3 (amended): full validator soundness fails (see
`validateNoPrices_removeAllPrices_false_at`), but the cleaned text never
retains a currency symbol, and validator soundness holds exactly when no
comprehensive price pattern, no standalone 2–4-digit number and no
market-price phrase survives in the cleaned text — the currency conjunct of
`validateNoPrices` always passes on `removeAllPrices` output. -/
theorem validateNoPrices_removeAllPrices_characterization (t : List Char) :
    (removeAllPrices t).any isCurrencyC = false ∧
      validateNoPrices (removeAllPrices t) =
        (!containsAnyPrice (removeAllPrices t) &&
         !reTest standalone24RE (removeAllPrices t) &&
         !reTest marketPriceRE (removeAllPrices t)) := by
  refine ⟨removeAllPrices_currencyFree t, ?_⟩
  unfold validateNoPrices
  rw [removeAllPrices_currencyFree t]
  simp only [Bool.not_false]
  cases containsAnyPrice (removeAllPrices t) <;>
    cases reTest standalone24RE (removeAllPrices t) <;>
      cases reTest marketPriceRE (removeAllPrices t) <;> rfl

section

attribute [local irreducible] removeAllPrices extractFeatures findEntreeMatch
attribute [local irreducible] calculateConfidenceScore calculateVisualHierarchyScore
attribute [local irreducible] detectCompoundMenuItems splitLineByPrices
attribute [local irreducible] isRestaurantNameOrHeader containsBlacklistedTerms
attribute [local irreducible] isSectionHeader jsTrim jsSplitWs jsIncludes
attribute [local irreducible] isAllCapsText isValidEntreeName getHeaderContext
attribute [local irreducible] detectSectionHeaders isPriceJunkC

/-- Every candidate the all-caps path emits passed the validity gate and
carries the line's header context. -/
lemma capsPath_mem_spec {lines : List (List Char)} {hs : List SectionHeader}
    {ocr : List OcrLine} {store : EntreeStore} {w : Option TrainedWeights}
    {exp : ℚ → ℚ} {page i : Nat} {line : OcrLine} {text : List Char} {vh : ℚ}
    {cs : List Candidate} {c : Candidate}
    (hr : capsPath lines hs ocr store w exp page i line text vh = some cs)
    (hm : c ∈ cs) :
    isValidEntreeName c.text = true ∧ c.headerContext = getHeaderContext i hs := by
  simp only [capsPath] at hr
  split at hr
  · split at hr
    · rw [Option.some.injEq] at hr; subst hr
      exact absurd hm (List.not_mem_nil c)
    · split at hr
      case isTrue hguard =>
        rw [Option.some.injEq] at hr; subst hr
        rw [List.mem_singleton] at hm; subst hm
        rw [Bool.and_eq_true] at hguard
        exact ⟨hguard.2, rfl⟩
      case isFalse _ => exact Option.noConfusion hr
  · exact Option.noConfusion hr

/-- Every candidate the high-visual-hierarchy path emits passed the validity
gate and carries the line's header context. -/
lemma vhPath_mem_spec {lines : List (List Char)} {hs : List SectionHeader}
    {ocr : List OcrLine} {store : EntreeStore} {w : Option TrainedWeights}
    {exp : ℚ → ℚ} {page i : Nat} {line : OcrLine} {text : List Char} {vh : ℚ}
    {cs : List Candidate} {c : Candidate}
    (hr : vhPath lines hs ocr store w exp page i line text vh = some cs)
    (hm : c ∈ cs) :
    isValidEntreeName c.text = true ∧ c.headerContext = getHeaderContext i hs := by
  simp only [vhPath] at hr
  split at hr
  · split at hr
    · rename_i cs' heq
      rw [Option.some.injEq] at hr; subst hr
      split at heq
      · split at heq
        · rw [Option.some.injEq] at heq; subst heq
          rw [List.mem_filterMap] at hm
          obtain ⟨item, _, hitem⟩ := hm
          split at hitem
          · split at hitem
            case isTrue hguard =>
              rw [Option.some.injEq] at hitem; subst hitem
              rw [Bool.and_eq_true] at hguard
              exact ⟨hguard.2, rfl⟩
            case isFalse _ => exact Option.noConfusion hitem
          · exact Option.noConfusion hitem
        · exact Option.noConfusion heq
      · exact Option.noConfusion heq
    · split at hr
      · rw [Option.some.injEq] at hr; subst hr
        exact absurd hm (List.not_mem_nil c)
      · split at hr
        case isTrue hguard =>
          rw [Option.some.injEq] at hr; subst hr
          rw [List.mem_singleton] at hm; subst hm
          rw [Bool.and_eq_true] at hguard
          exact ⟨hguard.2, rfl⟩
        case isFalse _ => exact Option.noConfusion hr
  · exact Option.noConfusion hr

/-- Every candidate the default path emits passed the validity gate and
carries the line's header context. -/
lemma defaultPath_mem_spec {lines : List (List Char)} {hs : List SectionHeader}
    {ocr : List OcrLine} {store : EntreeStore} {w : Option TrainedWeights}
    {exp : ℚ → ℚ} {page i : Nat} {line : OcrLine} {text : List Char}
    {c : Candidate}
    (hm : c ∈ defaultPath lines hs ocr store w exp page i line text) :
    isValidEntreeName c.text = true ∧ c.headerContext = getHeaderContext i hs := by
  simp only [defaultPath] at hm
  rw [List.mem_filterMap] at hm
  obtain ⟨part, _, hpart⟩ := hm
  split at hpart
  · exact Option.noConfusion hpart
  · split at hpart
    · exact Option.noConfusion hpart
    · split at hpart
      case isTrue hguard =>
        rw [Option.some.injEq] at hpart; subst hpart
        rw [Bool.and_eq_true] at hguard
        exact ⟨hguard.2, rfl⟩
      case isFalse _ => exact Option.noConfusion hpart

/-- Every candidate `processLine` contributes for line `i` passed
`isValidEntreeName` and carries `getHeaderContext i` as its header
context. -/
lemma processLine_mem_spec {lines : List (List Char)} {hs : List SectionHeader}
    {ocr : List OcrLine} {store : EntreeStore} {w : Option TrainedWeights}
    {exp : ℚ → ℚ} {page i : Nat} {line : OcrLine} {c : Candidate}
    (hc : c ∈ processLine lines hs ocr store w exp page i line) :
    isValidEntreeName c.text = true ∧ c.headerContext = getHeaderContext i hs := by
  simp only [processLine] at hc
  split at hc
  · exact absurd hc (List.not_mem_nil c)
  · split at hc
    · exact absurd hc (List.not_mem_nil c)
    · split at hc
      · exact absurd hc (List.not_mem_nil c)
      · split at hc
        · rename_i heq
          exact capsPath_mem_spec heq hc
        · split at hc
          · rename_i heq
            exact vhPath_mem_spec heq hc
          · exact defaultPath_mem_spec hc

/-- Membership in `extractCandidates` output comes from `processLine` at
some line index. -/
lemma extractCandidates_mem {ocrLines : List OcrLine} {pageNumber topN : Nat}
    {store : EntreeStore} {trainedWeights : Option TrainedWeights} {exp : ℚ → ℚ}
    {c : Candidate}
    (hc : c ∈ extractCandidates ocrLines pageNumber topN store trainedWeights exp) :
    ∃ i line, (i, line) ∈ ocrLines.enum ∧
      c ∈ processLine (ocrLines.map (·.text))
        (detectSectionHeaders (ocrLines.map (·.text))) ocrLines store
        trainedWeights exp pageNumber i line := by
  unfold extractCandidates at hc
  have h1 := (List.take_sublist topN _).subset hc
  have h2 := (List.perm_insertionSort
    (fun a b : Candidate => b.confidence ≤ a.confidence) _).subset h1
  rw [List.mem_flatMap] at h2
  obtain ⟨p, hp, hmem⟩ := h2
  exact ⟨p.1, p.2, hp, hmem⟩

end

/-- C9: the candidate list returned by `extractCandidates` is sorted by
confidence in descending order and has length at most `topN` (the final
stage sorts by descending confidence and takes the first `topN`). -/
theorem extractCandidates_sorted_and_truncated (ocrLines : List OcrLine)
    (pageNumber topN : Nat) (store : EntreeStore)
    (trainedWeights : Option TrainedWeights) (exp : ℚ → ℚ) :
    (extractCandidates ocrLines pageNumber topN store trainedWeights exp).Sorted
        (fun a b => b.confidence ≤ a.confidence) ∧
      (extractCandidates ocrLines pageNumber topN store trainedWeights exp).length ≤
        topN := by
  haveI : IsTotal Candidate (fun a b => b.confidence ≤ a.confidence) :=
    ⟨fun a b => le_total b.confidence a.confidence⟩
  haveI : IsTrans Candidate (fun a b => b.confidence ≤ a.confidence) :=
    ⟨fun _ _ _ hab hbc => le_trans hbc hab⟩
  unfold extractCandidates
  constructor
  · exact List.Pairwise.sublist (List.take_sublist topN _) (List.sorted_insertionSort _ _)
  · rw [List.length_take]
    exact min_le_left _ _

/-- `isValidEntreeName` ends in the price validator: a valid entree name
passes `validateNoPrices`. -/
lemma validateNoPrices_of_isValid {t : List Char}
    (h : isValidEntreeName t = true) : validateNoPrices t = true := by
  simp only [isValidEntreeName] at h
  split at h
  · exact Bool.noConfusion h
  · split at h
    · exact Bool.noConfusion h
    · split at h
      · exact Bool.noConfusion h
      · split at h
        · exact Bool.noConfusion h
        · exact h

/-- Two of the validator's four conjuncts: a string passing
`validateNoPrices` holds no currency symbol and no standalone 2-4-digit
number. -/
lemma validateNoPrices_components {t : List Char}
    (h : validateNoPrices t = true) :
    t.any isCurrencyC = false ∧ reTest standalone24RE t = false := by
  simp only [validateNoPrices, Bool.and_eq_true, Bool.not_eq_true'] at h
  exact ⟨h.1.2, h.1.1.2⟩

/-- C1 (amended): every candidate `extractCandidates` emits has cleaned text
free of currency symbols and free of standalone numbers of 2 to 4 digits
(what `validateNoPrices` checks); standalone numbers of 5 or more digits can
survive, so the claim's "2 or more" is too strong. -/
theorem extractCandidates_text_price_validated (ocrLines : List OcrLine)
    (pageNumber topN : Nat) (store : EntreeStore)
    (trainedWeights : Option TrainedWeights) (exp : ℚ → ℚ) (c : Candidate)
    (hc : c ∈ extractCandidates ocrLines pageNumber topN store trainedWeights exp) :
    c.text.any isCurrencyC = false ∧ reTest standalone24RE c.text = false := by
  obtain ⟨i, line, _, hproc⟩ := extractCandidates_mem hc
  exact validateNoPrices_components
    (validateNoPrices_of_isValid (processLine_mem_spec hproc).1)

/-- C1 counterexample: on the line `Grilled Chicken 12345 Supreme` the
extractor emits a candidate whose cleaned text still contains the
standalone five-digit number `12345` — a "standalone number of 2 or more
digits" in the claim's sense. -/
theorem extractCandidates_standalone5_survives :
    ∃ c ∈ extractCandidates [mkLine "Grilled Chicken 12345 Supreme"] 1 10
        unreachableStore none (fun _ => 0),
      hasStandaloneNumber2Plus c.text = true := by
  decide

theorem extractCandidates_text_price_validated_witness :
    ((extractCandidates [mkLine "Grilled Chicken 12345 Supreme"] 1 10
          unreachableStore none (fun _ => 0)).headD defaultCandidate).text.any
        isCurrencyC = false ∧
      reTest standalone24RE
        ((extractCandidates [mkLine "Grilled Chicken 12345 Supreme"] 1 10
            unreachableStore none (fun _ => 0)).headD defaultCandidate).text =
        false :=
  extractCandidates_text_price_validated
    [mkLine "Grilled Chicken 12345 Supreme"] 1 10 unreachableStore none
    (fun _ => 0)
    ((extractCandidates [mkLine "Grilled Chicken 12345 Supreme"] 1 10
        unreachableStore none (fun _ => 0)).headD defaultCandidate)
    (by decide)

/-- `enumFrom` carries strictly increasing indices. -/
lemma enumFrom_pairwise_fst {α : Type _} (n : Nat) (l : List α) :
    (l.enumFrom n).Pairwise fun a b => a.1 < b.1 := by
  induction l generalizing n with
  | nil => exact List.Pairwise.nil
  | cons x xs ih =>
    rw [List.enumFrom_cons]
    refine List.Pairwise.cons (fun p hp => ?_) (ih (n + 1))
    have h := (List.mem_enumFrom
      (show (p.1, p.2) ∈ xs.enumFrom (n + 1) from hp)).1
    show n < p.1
    omega

/-- The detected headers come out in strictly increasing line order. -/
lemma detectSectionHeaders_increasing (lines : List (List Char)) :
    (detectSectionHeaders lines).Pairwise fun a b => a.lineIndex < b.lineIndex := by
  unfold detectSectionHeaders
  refine List.Pairwise.filterMap _ (fun a a' hlt b hb b' hb' => ?_)
    (List.enum_eq_enumFrom ▸ enumFrom_pairwise_fst 0 lines)
  have eb : b.lineIndex = a.1 := by
    rw [Option.mem_def] at hb
    dsimp only at hb
    split at hb
    · exact Option.noConfusion hb
    · split at hb
      · rw [Option.some.injEq] at hb
        subst hb
        rfl
      · exact Option.noConfusion hb
  have eb' : b'.lineIndex = a'.1 := by
    rw [Option.mem_def] at hb'
    dsimp only at hb'
    split at hb'
    · exact Option.noConfusion hb'
    · split at hb'
      · rw [Option.some.injEq] at hb'
        subst hb'
        rfl
      · exact Option.noConfusion hb'
  rw [eb, eb']
  exact hlt

/-- `find?` on a `Pairwise R` list returns an element `R`-below every other
element satisfying the predicate. -/
lemma find_first_minimal {α : Type _} {p : α → Bool} {R : α → α → Prop}
    {l : List α} {a : α} (hp : l.Pairwise R) (h : l.find? p = some a) :
    ∀ b ∈ l, p b = true → a = b ∨ R a b := by
  induction l with
  | nil => exact absurd h (by simp)
  | cons x xs ih =>
    rcases List.pairwise_cons.mp hp with ⟨hx, hxs⟩
    intro b hb hpb
    cases hpx : p x with
    | true =>
      rw [List.find?_cons_of_pos _ hpx, Option.some.injEq] at h
      rcases List.mem_cons.mp hb with hbx | hbxs
      · exact Or.inl (h.symm.trans hbx.symm)
      · refine Or.inr ?_
        rw [h.symm]
        exact hx b hbxs
    | false =>
      rw [List.find?_cons_of_neg _ (by simp [hpx])] at h
      rcases List.mem_cons.mp hb with hbx | hbxs
      · subst hbx
        rw [hpb] at hpx
        exact Bool.noConfusion hpx
      · exact ih hxs h b hbxs hpb

/-- C10: a candidate's header context, when present, is the text of a
detected section header strictly above the candidate's source line by at
most 10 lines, and among the qualifying headers it is the *earliest* in
document order (the smallest line index — the farthest qualifying header
above, not the nearest). -/
theorem headerContext_earliest_qualifying (ocrLines : List OcrLine)
    (pageNumber topN : Nat) (store : EntreeStore)
    (trainedWeights : Option TrainedWeights) (exp : ℚ → ℚ) (c : Candidate)
    (t : List Char)
    (hc : c ∈ extractCandidates ocrLines pageNumber topN store trainedWeights exp)
    (ht : c.headerContext = some t) :
    ∃ i h, h ∈ detectSectionHeaders (ocrLines.map (·.text)) ∧
      i < ocrLines.length ∧ h.text = t ∧ h.lineIndex < i ∧
      i - h.lineIndex ≤ 10 ∧
      ∀ h' ∈ detectSectionHeaders (ocrLines.map (·.text)),
        h'.lineIndex < i → i - h'.lineIndex ≤ 10 →
          h.lineIndex ≤ h'.lineIndex := by
  obtain ⟨i, line, hil, hproc⟩ := extractCandidates_mem hc
  have hspec := processLine_mem_spec hproc
  have hg : getHeaderContext i (detectSectionHeaders (ocrLines.map (·.text))) =
      some t := hspec.2.symm.trans ht
  unfold getHeaderContext at hg
  rw [Option.map_eq_some'] at hg
  obtain ⟨h, hfind, htext⟩ := hg
  have hmem := List.mem_of_find?_eq_some hfind
  have hp := List.find?_some hfind
  simp only [Bool.and_eq_true, decide_eq_true_iff] at hp
  have hlen : i < ocrLines.length := by
    have := (List.mem_enumFrom
      (show ((i, line).1, (i, line).2) ∈ ocrLines.enumFrom 0 from
        List.enum_eq_enumFrom ▸ hil)).2.1
    omega
  refine ⟨i, h, hmem, hlen, htext, hp.1, hp.2, fun h' hmem' hlt' hle' => ?_⟩
  have hq : (h'.lineIndex < i && i - h'.lineIndex ≤ 10 : Bool) = true := by
    simp only [Bool.and_eq_true, decide_eq_true_iff]
    exact ⟨hlt', hle'⟩
  rcases find_first_minimal (detectSectionHeaders_increasing _) hfind h' hmem' hq
    with heq | hR
  · rw [heq]
  · exact Nat.le_of_lt hR

theorem headerContext_earliest_qualifying_witness :
    ∃ i h, h ∈ detectSectionHeaders (witnessLines.map (·.text)) ∧
      i < witnessLines.length ∧ h.text = "ENTREES".data ∧ h.lineIndex < i ∧
      i - h.lineIndex ≤ 10 ∧
      ∀ h' ∈ detectSectionHeaders (witnessLines.map (·.text)),
        h'.lineIndex < i → i - h'.lineIndex ≤ 10 →
          h.lineIndex ≤ h'.lineIndex :=
  headerContext_earliest_qualifying witnessLines 1 10 unreachableStore none
    (fun _ => 0)
    ((extractCandidates witnessLines 1 10 unreachableStore none
        (fun _ => 0)).headD defaultCandidate)
    ("ENTREES".data) (by decide) (by decide)

section

attribute [local irreducible] normalizeQuery calculatePartialMatchScore
attribute [local irreducible] calculateFuzzyMatchScore bestByScore jsSplitWs

/-- C8: the dictionary lookup tries exact, then partial, then fuzzy matching:
an unreachable store yields `none`; with a reachable store an exact hit
yields that row with boost `0.95` and type `exact`; and any returned match
is an exact one with boost `0.95`, a partial one with boost `0.8` whose
normalized-Levenshtein score exceeds `0.7`, or a fuzzy one with boost `0.7`
whose combined fuzzy score exceeds `0.6`.  The function is total: no failure
reaches the caller. -/
theorem findEntreeMatch_contract (store : EntreeStore) (text : List Char) :
    (store.connectionTest = .error () → findEntreeMatch store text = none) ∧
    (∀ row, store.connectionTest = .ok () →
      store.exactQuery (normalizeQuery text) = .ok row →
      ∃ m, findEntreeMatch store text = some m ∧ m.name = row.entree_name ∧
        m.confidence_boost = (0.95 : ℚ) ∧ m.match_type = .exact) ∧
    (∀ m, findEntreeMatch store text = some m →
      (m.confidence_boost = (0.95 : ℚ) ∧ m.match_type = .exact) ∨
      (m.confidence_boost = (0.8 : ℚ) ∧ m.match_type = .partial' ∧
        calculatePartialMatchScore (normalizeQuery text) m.name > (0.7 : ℚ)) ∨
      (m.confidence_boost = (0.7 : ℚ) ∧ m.match_type = .fuzzy ∧
        calculateFuzzyMatchScore (normalizeQuery text) m.name > (0.6 : ℚ))) := by
  refine ⟨fun h => ?_, fun row hconn hexact => ?_, fun m hm => ?_⟩
  · simp only [findEntreeMatch, h]
  · simp only [findEntreeMatch, hconn, hexact]
    exact ⟨_, rfl, rfl, rfl, rfl⟩
  · simp only [findEntreeMatch] at hm
    split at hm
    · exact Option.noConfusion hm
    · split at hm
      · rw [Option.some.injEq] at hm
        subst hm
        exact Or.inl ⟨rfl, rfl⟩
      · split at hm
        · rename_i m' heq
          rw [Option.some.injEq] at hm
          subst hm
          split at heq
          · exact Option.noConfusion heq
          · split at heq
            · exact Option.noConfusion heq
            · split at heq
              case isTrue hgt =>
                rw [Option.some.injEq] at heq
                subst heq
                exact Or.inr (Or.inl ⟨rfl, rfl, hgt⟩)
              case isFalse _ => exact Option.noConfusion heq
        · split at hm
          · exact Option.noConfusion hm
          · split at hm
            · exact Option.noConfusion hm
            · split at hm
              · exact Option.noConfusion hm
              · split at hm
                case isTrue hgt =>
                  rw [Option.some.injEq] at hm
                  subst hm
                  exact Or.inr (Or.inr ⟨rfl, rfl, hgt⟩)
                case isFalse _ => exact Option.noConfusion hm

end

theorem findEntreeMatch_contract_witness :
    findEntreeMatch unreachableStore ("Ribeye Steak".data) = none :=
  (findEntreeMatch_contract unreachableStore ("Ribeye Steak".data)).1 rfl

/-- A `{lo,hi}` count over a class that implies `p` is `0` on a `p`-free
suffix. -/
lemma countWhileUpTo_eq_zero {p q : Char → Bool}
    (himp : ∀ c, q c = true → p c = true) :
    ∀ (hi : Nat) (right : List Char), (∀ c ∈ right, p c = false) →
      countWhileUpTo q hi right = 0 := by
  intro hi right hr
  cases hi with
  | zero => rfl
  | succ n =>
    cases right with
    | nil => rfl
    | cons c rest =>
      have hq : q c = false := by
        cases hqc : q c with
        | false => rfl
        | true =>
          have hpc := himp c hqc
          rw [hr c (List.mem_cons_self c rest)] at hpc
          exact Bool.noConfusion hpc
      simp [countWhileUpTo, hq]

lemma greedyRange_pos_zero {lo : Nat} (h : 1 ≤ lo) : greedyRange lo 0 = [] := by
  show (if lo = 0 then ([0] : List Nat) else []) = []
  rw [if_neg (by omega)]

/-- Soundness of `NeedsCls`: a regex whose every match must consume a
`p`-character has no match at a position whose suffix is `p`-free. -/
lemma matchCaps_eq_nil_of_needsCls {p : Char → Bool} {re : RE}
    (h : NeedsCls p re) :
    ∀ (left right : List Char), (∀ c ∈ right, p c = false) →
      matchCaps re left right = [] := by
  induction h with
  | cls q himp =>
    intro left right hr
    cases right with
    | nil => rfl
    | cons c rest =>
      have hq : q c = false := by
        cases hqc : q c with
        | false => rfl
        | true =>
          have hpc := himp c hqc
          rw [hr c (List.mem_cons_self c rest)] at hpc
          exact Bool.noConfusion hpc
      simp [matchCaps, hq]
  | seqL a b ha iha =>
    intro left right hr
    simp [matchCaps, iha left right hr]
  | seqR a b hb ihb =>
    intro left right hr
    simp only [matchCaps]
    rw [List.flatMap_eq_nil_iff]
    intro pr hpr
    rw [ihb _ _ fun c hc => hr c (List.mem_of_mem_drop hc)]
    rfl
  | alt a b ha hb iha ihb =>
    intro left right hr
    simp [matchCaps, iha left right hr, ihb left right hr]
  | rep q lo hi hlo himp =>
    intro left right hr
    simp only [matchCaps]
    rw [countWhileUpTo_eq_zero himp hi right hr, greedyRange_pos_zero hlo]
    rfl
  | plus q himp =>
    intro left right hr
    simp only [matchCaps]
    rw [countWhileUpTo_eq_zero himp right.length right hr,
      greedyRange_pos_zero (le_refl 1)]
    rfl
  | lazyPlus q himp =>
    intro left right hr
    simp only [matchCaps]
    rw [countWhileUpTo_eq_zero himp right.length right hr]
    rfl
  | group i a ha iha =>
    intro left right hr
    simp [matchCaps, iha left right hr]

lemma firstLen_none_of_needsCls {p : Char → Bool} {re : RE} (h : NeedsCls p re)
    (left right : List Char) (hr : ∀ c ∈ right, p c = false) :
    firstLen re left right = none := by
  unfold firstLen matchLens
  rw [matchCaps_eq_nil_of_needsCls h left right hr]
  rfl

/-- If no position of the subject has a match, a global replace copies the
subject unchanged. -/
lemma replaceGo_id (re : RE) (repl : List Char) :
    ∀ (right : List Char) (fuel : Nat) (left : List Char), right.length < fuel →
      (∀ k, firstLen re ((right.take k).reverse ++ left) (right.drop k) = none) →
      replaceGo re repl fuel left right = right := by
  intro right
  induction right with
  | nil =>
    intro fuel left hf h
    cases fuel with
    | zero => omega
    | succ f =>
      have h0 := h 0
      simp only [List.take_nil, List.reverse_nil, List.nil_append,
        List.drop_nil] at h0
      simp only [replaceGo, h0]
  | cons c rest ih =>
    intro fuel left hf h
    cases fuel with
    | zero => omega
    | succ f =>
      have h0 := h 0
      simp only [List.take_zero, List.reverse_nil, List.nil_append,
        List.drop_zero] at h0
      simp only [replaceGo, h0]
      congr 1
      apply ih f (c :: left) (by simp only [List.length_cons] at hf; omega)
      intro k
      have hk := h (k + 1)
      simpa [List.take_succ_cons, List.drop_succ_cons, List.reverse_cons,
        List.append_assoc] using hk

lemma findFrom_nil (fuel : Nat) (re : RE) (left : List Char) :
    findFrom fuel re left [] =
      match firstLen re left [] with
      | some n => some (0, n)
      | none => none := by
  rw [findFrom]
  cases fuel <;> cases firstLen re left [] <;>
    first
      | rfl
      | (intro fuel2 c2 rest2 h1 h2; exact List.noConfusion h2)

lemma findFrom_succ (f : Nat) (re : RE) (left : List Char) (c : Char)
    (rest : List Char) :
    findFrom (f + 1) re left (c :: rest) =
      match firstLen re left (c :: rest) with
      | some n => some (0, n)
      | none => (findFrom f re (c :: left) rest).map fun pr => (pr.1 + 1, pr.2) := by
  rw [findFrom]

/-- A failed fresh search means no position matches. -/
lemma findFrom_none (re : RE) :
    ∀ (right : List Char) (fuel : Nat) (left : List Char), right.length ≤ fuel →
      findFrom fuel re left right = none →
      ∀ k, firstLen re ((right.take k).reverse ++ left) (right.drop k) = none := by
  intro right
  induction right with
  | nil =>
    intro fuel left hf h k
    rw [findFrom_nil] at h
    have h1 : firstLen re left [] = none := by
      cases hfl : firstLen re left [] with
      | none => rfl
      | some n => simp [hfl] at h
    simpa using h1
  | cons c rest ih =>
    intro fuel left hf h k
    cases fuel with
    | zero => simp only [List.length_cons] at hf; omega
    | succ f =>
      rw [findFrom_succ] at h
      have h1 : firstLen re left (c :: rest) = none := by
        cases hfl : firstLen re left (c :: rest) with
        | none => rfl
        | some n => simp [hfl] at h
      rw [h1] at h
      simp only [Option.map_eq_none'] at h
      cases k with
      | zero => simpa using h1
      | succ k' =>
        have hrec := ih f (c :: left)
          (by simp only [List.length_cons] at hf; omega) h k'
        simpa [List.take_succ_cons, List.drop_succ_cons, List.reverse_cons,
          List.append_assoc] using hrec

lemma jsReplace_id_of_needsCls {p : Char → Bool} {re : RE} (h : NeedsCls p re)
    {s : List Char} (hs : ∀ c ∈ s, p c = false) (repl : List Char) :
    jsReplace re repl s = s := by
  unfold jsReplace
  apply replaceGo_id re repl s (s.length + 1) [] (Nat.lt_succ_self _)
  intro k
  exact firstLen_none_of_needsCls h _ _ fun c hc => hs c (List.mem_of_mem_drop hc)

lemma jsReplace_id_of_not_test (re : RE) (repl s : List Char)
    (h : reTest re s = false) : jsReplace re repl s = s := by
  have hn : findFrom s.length re [] s = none := by
    cases hff : findFrom s.length re [] s with
    | none => rfl
    | some v => unfold reTest at h; rw [hff] at h; exact Bool.noConfusion h
  unfold jsReplace
  apply replaceGo_id re repl s (s.length + 1) [] (Nat.lt_succ_self _)
  exact findFrom_none re s s.length [] (le_refl _) hn

/-- On a digit-free string with no market-price phrase, the whole
comprehensive-pattern replacement loop is the identity. -/
lemma priceFold_id {y : List Char} (hd : ∀ c ∈ y, isDigitC c = false)
    (hm : reTest marketPriceRE y = false) :
    COMPREHENSIVE_PRICE_PATTERNS.foldl (fun t re => jsReplace re [] t) y = y := by
  have hid : ∀ re, NeedsCls isDigitC re → jsReplace re [] y = y := fun re h =>
    jsReplace_id_of_needsCls h hd []
  have hrep14 : NeedsCls isDigitC (reDigits 1 4) :=
    .rep isDigitC 1 4 (by omega) fun _ hc => hc
  have hrep13 : NeedsCls isDigitC (reDigits 1 3) :=
    .rep isDigitC 1 3 (by omega) fun _ hc => hc
  have hrep34 : NeedsCls isDigitC (reDigits 3 4) :=
    .rep isDigitC 3 4 (by omega) fun _ hc => hc
  have n1 : NeedsCls isDigitC
      (RE.seqs [RE.cls isCurrencyC, reSpaceOpt, reDigits 1 4, reDecimals]) :=
    .seqR _ _ (.seqR _ _ (.seqL _ _ hrep14))
  have n2 : NeedsCls isDigitC
      (RE.seqs [reDigits 1 4, reDecimals, reSpaceOpt, RE.cls isCurrencyC]) :=
    .seqL _ _ hrep14
  have n3 : NeedsCls isDigitC
      (RE.seqs [reDigits 1 3, RE.cls isDotCommaC, reDigits 2 2]) :=
    .seqL _ _ hrep13
  have n4 : NeedsCls isDigitC
      (RE.seqs [reDigits 1 4, reDecimals, RE.star isSpaceC, RE.eos]) :=
    .seqL _ _ hrep14
  have n5 : NeedsCls isDigitC
      (RE.seqs [RE.bos, RE.star isSpaceC, reDigits 1 4, reDecimals,
        RE.plus isSpaceC]) :=
    .seqR _ _ (.seqR _ _ (.seqL _ _ hrep14))
  have n6 : NeedsCls isDigitC
      (RE.seqs [reDigits 1 4, reDecimals, RE.star isSpaceC,
        RE.alt (reCurrencyWord "euro" true)
          (RE.alt (reCurrencyWord "dollar" true)
            (RE.alt (reCurrencyWord "cent" true)
              (RE.alt (reCurrencyWord "pound" true)
                (reCurrencyWord "yen" false))))]) :=
    .seqL _ _ hrep14
  have n7 : NeedsCls isDigitC
      (RE.seqs [RE.nlb isWordC, reDigits 3 4, RE.nla isWordC]) :=
    .seqR _ _ (.seqL _ _ hrep34)
  have n8 : NeedsCls isDigitC
      (RE.seqs [reDigits 1 4, RE.star isSpaceC, RE.cls isDotCommaC,
        RE.star isSpaceC, reDigits 2 2]) :=
    .seqL _ _ hrep14
  simp only [COMPREHENSIVE_PRICE_PATTERNS, List.foldl_cons, List.foldl_nil]
  rw [hid _ n1, hid _ n2, hid _ n3, hid _ n4, hid _ n5, hid _ n6, hid _ n7,
    hid _ n8, jsReplace_id_of_not_test marketPriceRE [] y hm]

lemma stripCurrency_id {y : List Char} (h : y.any isCurrencyC = false) :
    stripCurrency y = y := by
  unfold stripCurrency
  rw [List.filter_eq_self]
  intro c hc
  rw [List.any_eq_false] at h
  simp [h c hc]

/-- `collapseWsGo true` never emits a leading whitespace character. -/
lemma collapseWsGo_true_head {s : List Char} :
    ∀ c, (collapseWsGo true s).head? = some c → isSpaceC c = false := by
  induction s with
  | nil => intro c h; exact Option.noConfusion h
  | cons d rest ih =>
    intro c h
    by_cases hd : isSpaceC d = true
    · rw [show collapseWsGo true (d :: rest) = collapseWsGo true rest from by
        simp [collapseWsGo, hd]] at h
      exact ih c h
    · rw [Bool.not_eq_true] at hd
      rw [show collapseWsGo true (d :: rest) = d :: collapseWsGo false rest from by
        simp [collapseWsGo, hd]] at h
      rw [List.head?_cons, Option.some.injEq] at h
      rw [← h]
      exact hd

/-- `collapseWsGo` output never holds two adjacent whitespace characters. -/
lemma collapseWsGo_chain (s : List Char) :
    ∀ b, List.Chain' (fun a c => isSpaceC a = false ∨ isSpaceC c = false)
      (collapseWsGo b s) := by
  induction s with
  | nil => intro b; exact List.chain'_nil
  | cons d rest ih =>
    intro b
    by_cases hd : isSpaceC d = true
    · cases b with
      | true =>
        rw [show collapseWsGo true (d :: rest) = collapseWsGo true rest from by
          simp [collapseWsGo, hd]]
        exact ih true
      | false =>
        rw [show collapseWsGo false (d :: rest) = ' ' :: collapseWsGo true rest from by
          simp [collapseWsGo, hd]]
        rw [List.chain'_cons']
        exact ⟨fun y hy => Or.inr (collapseWsGo_true_head y (Option.mem_def.mp hy)),
          ih true⟩
    · rw [Bool.not_eq_true] at hd
      rw [show collapseWsGo b (d :: rest) = d :: collapseWsGo false rest from by
        simp [collapseWsGo, hd]]
      rw [List.chain'_cons']
      exact ⟨fun y hy => Or.inl hd, ih false⟩

/-- Every whitespace character `collapseWsGo` emits is a plain space. -/
lemma collapseWsGo_space (s : List Char) :
    ∀ b c, c ∈ collapseWsGo b s → isSpaceC c = true → c = ' ' := by
  induction s with
  | nil => intro b c h; exact absurd h (List.not_mem_nil c)
  | cons d rest ih =>
    intro b c h hws
    by_cases hd : isSpaceC d = true
    · cases b with
      | true =>
        rw [show collapseWsGo true (d :: rest) = collapseWsGo true rest from by
          simp [collapseWsGo, hd]] at h
        exact ih true c h hws
      | false =>
        rw [show collapseWsGo false (d :: rest) = ' ' :: collapseWsGo true rest from by
          simp [collapseWsGo, hd]] at h
        rcases List.mem_cons.mp h with h1 | h1
        · exact h1
        · exact ih true c h1 hws
    · rw [Bool.not_eq_true] at hd
      rw [show collapseWsGo b (d :: rest) = d :: collapseWsGo false rest from by
        simp [collapseWsGo, hd]] at h
      rcases List.mem_cons.mp h with h1 | h1
      · subst h1; rw [hws] at hd; exact Bool.noConfusion hd
      · exact ih false c h1 hws

lemma collapseWsGo_true_eq_false {s : List Char}
    (h : ∀ c, s.head? = some c → isSpaceC c = false) :
    collapseWsGo true s = collapseWsGo false s := by
  cases s with
  | nil => rfl
  | cons d rest =>
    have hd := h d rfl
    simp [collapseWsGo, hd]

/-- `collapseWs` is the identity on a string with no two adjacent whitespace
characters whose whitespace is all plain spaces. -/
lemma collapseWs_eq_self : ∀ (v : List Char),
    List.Chain' (fun a c => isSpaceC a = false ∨ isSpaceC c = false) v →
    (∀ c ∈ v, isSpaceC c = true → c = ' ') → collapseWs v = v := by
  intro v
  induction v with
  | nil => intro _ _; rfl
  | cons d rest ih =>
    intro hch hsp
    rcases List.chain'_cons'.mp hch with ⟨hhead, htail⟩
    show collapseWsGo false (d :: rest) = d :: rest
    by_cases hd : isSpaceC d = true
    · have hd' : d = ' ' := hsp d (List.mem_cons_self d rest) hd
      rw [show collapseWsGo false (d :: rest) = ' ' :: collapseWsGo true rest from by
        simp [collapseWsGo, hd]]
      rw [collapseWsGo_true_eq_false fun c hc => ?_]
      · rw [show collapseWsGo false rest = collapseWs rest from rfl]
        rw [ih htail fun c hc h => hsp c (List.mem_cons_of_mem d hc) h, hd']
      · rcases hhead c (Option.mem_def.mpr hc) with h1 | h1
        · rw [hd] at h1; exact Bool.noConfusion h1
        · exact h1
    · rw [Bool.not_eq_true] at hd
      rw [show collapseWsGo false (d :: rest) = d :: collapseWsGo false rest from by
        simp [collapseWsGo, hd]]
      rw [show collapseWsGo false rest = collapseWs rest from rfl]
      rw [ih htail fun c hc h => hsp c (List.mem_cons_of_mem d hc) h]

lemma dropWhile_head_not {l : List Char} :
    ∀ c, (l.dropWhile isSpaceC).head? = some c → isSpaceC c = false := by
  induction l with
  | nil => intro c h; exact Option.noConfusion h
  | cons d rest ih =>
    intro c h
    rw [List.dropWhile_cons] at h
    split at h
    · exact ih c h
    · rename_i hd
      rw [List.head?_cons, Option.some.injEq] at h
      rw [← h]
      simpa using hd

lemma dropWhile_eq_self_of_head {l : List Char}
    (h : ∀ c, l.head? = some c → isSpaceC c = false) :
    l.dropWhile isSpaceC = l := by
  cases l with
  | nil => rfl
  | cons d rest => rw [List.dropWhile_cons, if_neg (by simp [h d rfl])]

lemma jsTrim_eq_of_clean {v : List Char}
    (hhead : ∀ c, v.head? = some c → isSpaceC c = false)
    (hlast : ∀ c, v.reverse.head? = some c → isSpaceC c = false) :
    jsTrim v = v := by
  unfold jsTrim
  rw [dropWhile_eq_self_of_head hhead, dropWhile_eq_self_of_head hlast,
    List.reverse_reverse]

/-- `jsTrim` output starts with a non-whitespace character (if any). -/
lemma jsTrim_clean_head (s : List Char) :
    ∀ c, (jsTrim s).head? = some c → isSpaceC c = false := by
  intro c hc
  unfold jsTrim at hc
  obtain ⟨t, ht⟩ := List.dropWhile_suffix (l := (s.dropWhile isSpaceC).reverse)
    isSpaceC
  have hA : s.dropWhile isSpaceC =
      ((s.dropWhile isSpaceC).reverse.dropWhile isSpaceC).reverse ++ t.reverse := by
    rw [← List.reverse_append, ht, List.reverse_reverse]
  have hh : (s.dropWhile isSpaceC).head? = some c := by
    rw [hA, List.head?_append, hc]
    rfl
  exact dropWhile_head_not c hh

/-- `jsTrim` output ends with a non-whitespace character (if any). -/
lemma jsTrim_clean_last (s : List Char) :
    ∀ c, (jsTrim s).reverse.head? = some c → isSpaceC c = false := by
  intro c hc
  unfold jsTrim at hc
  rw [List.reverse_reverse] at hc
  exact dropWhile_head_not c hc

lemma jsTrim_idem (s : List Char) : jsTrim (jsTrim s) = jsTrim s :=
  jsTrim_eq_of_clean (jsTrim_clean_head s) (jsTrim_clean_last s)

lemma chain_ws_reverse {l : List Char}
    (h : List.Chain' (fun a c => isSpaceC a = false ∨ isSpaceC c = false) l) :
    List.Chain' (fun a c => isSpaceC a = false ∨ isSpaceC c = false) l.reverse := by
  rw [List.chain'_reverse]
  exact h.imp fun a c hac => hac.symm

lemma chain_ws_jsTrim {v : List Char}
    (h : List.Chain' (fun a c => isSpaceC a = false ∨ isSpaceC c = false) v) :
    List.Chain' (fun a c => isSpaceC a = false ∨ isSpaceC c = false) (jsTrim v) := by
  unfold jsTrim
  exact chain_ws_reverse ((chain_ws_reverse
    (h.suffix (List.dropWhile_suffix isSpaceC))).suffix
      (List.dropWhile_suffix isSpaceC))

/-- The whitespace collapse-and-trim tail of `removeAllPrices` is
idempotent. -/
lemma trimCollapse_idem (w : List Char) :
    jsTrim (collapseWs (jsTrim (collapseWs w))) = jsTrim (collapseWs w) := by
  have hch : List.Chain' (fun a c => isSpaceC a = false ∨ isSpaceC c = false)
      (jsTrim (collapseWs w)) := chain_ws_jsTrim (collapseWsGo_chain w false)
  have hsp : ∀ c ∈ jsTrim (collapseWs w), isSpaceC c = true → c = ' ' :=
    fun c hc h => collapseWsGo_space w false c (mem_jsTrim hc) h
  rw [collapseWs_eq_self (jsTrim (collapseWs w)) hch hsp]
  exact jsTrim_idem (collapseWs w)

/-- C2 (amended): `removeAllPrices` is not idempotent in general (see the
counterexample), but it is on every input whose cleaned output is digit-free
and free of the market-price phrase: all comprehensive patterns except the
market-price one can only match through a digit, the currency strip is the
identity on the always currency-free output, and the whitespace collapse and
trim are jointly idempotent. -/
theorem removeAllPrices_idem_of_clean (x : List Char)
    (hdig : (removeAllPrices x).any isDigitC = false)
    (hmkt : reTest marketPriceRE (removeAllPrices x) = false) :
    removeAllPrices (removeAllPrices x) = removeAllPrices x := by
  have hexp : ∀ s : List Char, removeAllPrices s =
      jsTrim (collapseWs (stripCurrency (jsReplace standalone34RE []
        (COMPREHENSIVE_PRICE_PATTERNS.foldl (fun t re => jsReplace re [] t) s)))) :=
    fun s => rfl
  have hd : ∀ c ∈ removeAllPrices x, isDigitC c = false := by
    rw [List.any_eq_false] at hdig
    intro c hc
    simpa using hdig c hc
  have h34 : NeedsCls isDigitC standalone34RE :=
    .seqR _ _ (.seqL _ _ (.rep isDigitC 3 4 (by omega) fun _ hc => hc))
  rw [hexp (removeAllPrices x)]
  rw [priceFold_id hd hmkt]
  rw [jsReplace_id_of_needsCls h34 hd []]
  rw [stripCurrency_id (removeAllPrices_currencyFree x)]
  rw [hexp x]
  exact trimCollapse_idem _

theorem removeAllPrices_idem_of_clean_witness :
    (removeAllPrices "Lobster Newburg $18.50".data).any isDigitC = false ∧
      reTest marketPriceRE (removeAllPrices "Lobster Newburg $18.50".data) = false ∧
      removeAllPrices (removeAllPrices "Lobster Newburg $18.50".data) =
        removeAllPrices "Lobster Newburg $18.50".data :=
  ⟨by decide, by decide,
    removeAllPrices_idem_of_clean ("Lobster Newburg $18.50".data) (by decide)
      (by decide)⟩

lemma magSqQ_nonneg (ws : List (List Char)) : 0 ≤ magSqQ ws := by
  unfold magSqQ
  apply List.sum_nonneg
  intro x hx
  rw [List.mem_map] at hx
  obtain ⟨w, _, hw⟩ := hx
  rw [← hw]
  exact mul_self_nonneg _

lemma foldl_max_init_le {α : Type _} (f : α → ℝ) :
    ∀ (l : List α) (init : ℝ), init ≤ l.foldl (fun m h => max m (f h)) init := by
  intro l
  induction l with
  | nil => intro init; exact le_refl init
  | cons y rest ih =>
    intro init
    rw [List.foldl_cons]
    exact le_trans (le_max_left init (f y)) (ih (max init (f y)))

lemma le_foldl_max_of_mem {α : Type _} (f : α → ℝ) :
    ∀ (l : List α) (init : ℝ) (x : α), x ∈ l →
      f x ≤ l.foldl (fun m h => max m (f h)) init := by
  intro l
  induction l with
  | nil => intro init x hx; exact absurd hx (List.not_mem_nil x)
  | cons y rest ih =>
    intro init x hx
    rw [List.foldl_cons]
    rcases List.mem_cons.mp hx with h1 | h1
    · rw [h1]
      exact le_trans (le_max_right init (f y)) (foldl_max_init_le f rest _)
    · exact ih _ x h1

lemma lt_foldl_max_iff {α : Type _} (f : α → ℝ) (c : ℝ) :
    ∀ (l : List α) (init : ℝ),
      (c < l.foldl (fun m h => max m (f h)) init ↔ c < init ∨ ∃ x ∈ l, c < f x) := by
  intro l
  induction l with
  | nil => intro init; simp
  | cons y rest ih =>
    intro init
    rw [List.foldl_cons, ih (max init (f y)), lt_max_iff, List.exists_mem_cons_iff]
    tauto

/-- The exact squared comparison against the real cosine similarity: for
positive rational `c` and positive squared magnitudes, the rational decision
`0 < dot ∧ c²·m₁·m₂ < dot²` says exactly `c < dot / (√m₁·√m₂)`. -/
lemma sq_compare_iff {c dot m1 m2 : ℚ} (hc : 0 < c) (hm1 : 0 < m1)
    (hm2 : 0 < m2) :
    (0 < dot ∧ c ^ 2 * (m1 * m2) < dot ^ 2) ↔
      (c : ℝ) < (dot : ℝ) / (Real.sqrt (m1 : ℝ) * Real.sqrt (m2 : ℝ)) := by
  have hm1R : (0 : ℝ) < (m1 : ℝ) := by exact_mod_cast hm1
  have hm2R : (0 : ℝ) < (m2 : ℝ) := by exact_mod_cast hm2
  have hcR : (0 : ℝ) < (c : ℝ) := by exact_mod_cast hc
  have hs : 0 < Real.sqrt (m1 : ℝ) * Real.sqrt (m2 : ℝ) :=
    mul_pos (Real.sqrt_pos.mpr hm1R) (Real.sqrt_pos.mpr hm2R)
  have hS2 : Real.sqrt (m1 : ℝ) * Real.sqrt (m2 : ℝ) *
      (Real.sqrt (m1 : ℝ) * Real.sqrt (m2 : ℝ)) = (m1 : ℝ) * (m2 : ℝ) := by
    rw [show Real.sqrt (m1 : ℝ) * Real.sqrt (m2 : ℝ) *
        (Real.sqrt (m1 : ℝ) * Real.sqrt (m2 : ℝ)) =
        Real.sqrt (m1 : ℝ) * Real.sqrt (m1 : ℝ) *
          (Real.sqrt (m2 : ℝ) * Real.sqrt (m2 : ℝ)) from by ring,
      Real.mul_self_sqrt (le_of_lt hm1R), Real.mul_self_sqrt (le_of_lt hm2R)]
  rw [lt_div_iff₀ hs]
  constructor
  · rintro ⟨hdot, hlt⟩
    have hdR : (0 : ℝ) < (dot : ℝ) := by exact_mod_cast hdot
    rw [mul_self_lt_mul_self_iff (le_of_lt (mul_pos hcR hs)) (le_of_lt hdR)]
    calc (c : ℝ) * (Real.sqrt (m1 : ℝ) * Real.sqrt (m2 : ℝ)) *
          ((c : ℝ) * (Real.sqrt (m1 : ℝ) * Real.sqrt (m2 : ℝ)))
        = (c : ℝ) ^ 2 * (Real.sqrt (m1 : ℝ) * Real.sqrt (m2 : ℝ) *
            (Real.sqrt (m1 : ℝ) * Real.sqrt (m2 : ℝ))) := by ring
      _ = (c : ℝ) ^ 2 * ((m1 : ℝ) * (m2 : ℝ)) := by rw [hS2]
      _ < (dot : ℝ) ^ 2 := by exact_mod_cast hlt
      _ = (dot : ℝ) * (dot : ℝ) := by ring
  · intro h
    have hdR : (0 : ℝ) < (dot : ℝ) := lt_trans (mul_pos hcR hs) h
    refine ⟨by exact_mod_cast hdR, ?_⟩
    have h2 := (mul_self_lt_mul_self_iff (le_of_lt (mul_pos hcR hs))
      (le_of_lt hdR)).mp h
    have h3 : (c : ℝ) ^ 2 * ((m1 : ℝ) * (m2 : ℝ)) < (dot : ℝ) ^ 2 := by
      calc (c : ℝ) ^ 2 * ((m1 : ℝ) * (m2 : ℝ))
          = (c : ℝ) ^ 2 * (Real.sqrt (m1 : ℝ) * Real.sqrt (m2 : ℝ) *
              (Real.sqrt (m1 : ℝ) * Real.sqrt (m2 : ℝ))) := by rw [hS2]
        _ = (c : ℝ) * (Real.sqrt (m1 : ℝ) * Real.sqrt (m2 : ℝ)) *
            ((c : ℝ) * (Real.sqrt (m1 : ℝ) * Real.sqrt (m2 : ℝ))) := by ring
        _ < (dot : ℝ) * (dot : ℝ) := h2
        _ = (dot : ℝ) ^ 2 := by ring
    exact_mod_cast h3

lemma sqrt_magSq_ne_zero {ws : List (List Char)} (h : ¬magSqQ ws = 0) :
    ¬Real.sqrt ((magSqQ ws : ℚ) : ℝ) = 0 := by
  rw [Real.sqrt_eq_zero']
  intro hle
  apply h
  have h0 : (0 : ℚ) ≤ magSqQ ws := magSqQ_nonneg ws
  have heq : ((magSqQ ws : ℚ) : ℝ) = 0 := le_antisymm hle (by exact_mod_cast h0)
  exact_mod_cast heq

/-- The decidable rational comparison `similarityGt` decides exactly
`c < calculateSimilarityR` for positive thresholds. -/
lemma similarityGt_iff (str1 str2 : List Char) {c : ℚ} (hc : 0 < c) :
    (similarityGt str1 str2 c = true ↔
      (c : ℝ) < calculateSimilarityR str1 str2) := by
  have hcR : (0 : ℝ) < (c : ℝ) := by exact_mod_cast hc
  simp only [similarityGt, calculateSimilarityR]
  by_cases h1 : ((wordsOf str1).isEmpty || (wordsOf str2).isEmpty) = true
  · rw [if_pos h1, if_pos h1]
    refine iff_of_false ?_ (not_lt.mpr (le_of_lt hcR))
    simp only [decide_eq_true_iff, gt_iff_lt, not_lt]
    exact le_of_lt hc
  · rw [if_neg h1, if_neg h1]
    by_cases h2 : (decide (magSqQ (wordsOf str1) = 0) ||
        decide (magSqQ (wordsOf str2) = 0)) = true
    · rw [if_pos h2, if_pos ?hz]
      case hz =>
        rw [Bool.or_eq_true, decide_eq_true_iff, decide_eq_true_iff] at h2
        rcases h2 with h2 | h2
        · exact Or.inl (by rw [h2]; simp)
        · exact Or.inr (by rw [h2]; simp)
      refine iff_of_false ?_ (not_lt.mpr (le_of_lt hcR))
      simp only [decide_eq_true_iff, gt_iff_lt, not_lt]
      exact le_of_lt hc
    · have h2' : ¬magSqQ (wordsOf str1) = 0 ∧ ¬magSqQ (wordsOf str2) = 0 := by
        rw [Bool.or_eq_true, decide_eq_true_iff, decide_eq_true_iff] at h2
        push_neg at h2
        exact h2
      rw [if_neg h2, if_neg ?hnz]
      case hnz =>
        rintro (hz | hz)
        · exact sqrt_magSq_ne_zero h2'.1 hz
        · exact sqrt_magSq_ne_zero h2'.2 hz
      rw [decide_eq_true_iff]
      exact sq_compare_iff hc
        (lt_of_le_of_ne (magSqQ_nonneg _) (Ne.symm h2'.1))
        (lt_of_le_of_ne (magSqQ_nonneg _) (Ne.symm h2'.2))

lemma headerPenalty_nonneg (line : List Char) : 0 ≤ headerPenalty line := by
  simp only [headerPenalty]
  refine add_nonneg (add_nonneg ?_ ?_) ?_ <;> split <;> norm_num

/-- The decidable `calculateHeaderConfidenceGtHalf` decides exactly
`1/2 < calculateHeaderConfidenceR`. -/
lemma headerGtHalf_iff (line : List Char) :
    (calculateHeaderConfidenceGtHalf line = true ↔
      (1 : ℝ) / 2 < calculateHeaderConfidenceR line) := by
  have hp := headerPenalty_nonneg line
  have hpR : (0 : ℝ) ≤ (headerPenalty line : ℝ) := by exact_mod_cast hp
  simp only [calculateHeaderConfidenceGtHalf, calculateHeaderConfidenceR]
  rw [lt_max_iff, or_iff_right (by norm_num), lt_sub_iff_add_lt,
    lt_foldl_max_iff (fun h : String =>
      calculateSimilarityR (normalizeText line) h.data),
    or_iff_right (by intro hcon; linarith), List.any_eq_true]
  have hcast : (((0.5 : ℚ) + headerPenalty line : ℚ) : ℝ) =
      1 / 2 + (headerPenalty line : ℝ) := by
    push_cast
    norm_num
  have hpos : (0 : ℚ) < (0.5 : ℚ) + headerPenalty line := by linarith
  constructor
  · rintro ⟨x, hx, hgt⟩
    refine ⟨x, hx, ?_⟩
    rw [← hcast]
    exact (similarityGt_iff _ _ hpos).mp hgt
  · rintro ⟨x, hx, hlt⟩
    refine ⟨x, hx, (similarityGt_iff _ _ hpos).mpr ?_⟩
    rw [hcast]
    exact hlt

/-- C6 (amended): the header detector keeps exactly the non-blank trimmed
lines whose real-valued score — maximum cosine similarity to the vocabulary
minus the 0.5 price, 0.3 word-count and 0.4 food-word penalties — exceeds
`1/2`; but the word-count penalty counts all words of the normalized line,
not the stop-word-filtered "meaningful" words of the claim (see the
counterexample). -/
theorem detectSectionHeaders_eq_realSpec (lines : List (List Char)) :
    detectSectionHeaders lines = detectSectionHeadersR lines := by
  unfold detectSectionHeaders detectSectionHeadersR
  apply List.filterMap_congr
  intro p _
  dsimp only
  by_cases he : (jsTrim p.2).isEmpty = true
  · rw [if_pos he, if_neg (fun h => h.1 he)]
  · rw [if_neg he]
    by_cases hg : calculateHeaderConfidenceGtHalf (jsTrim p.2) = true
    · rw [if_pos hg, if_pos ⟨he, (headerGtHalf_iff _).mp hg⟩]
    · rw [if_neg hg, if_neg (fun h => hg ((headerGtHalf_iff _).mpr h.2))]

/-- C6 counterexample: on the line `a la carte of the in` the code's
word-count penalty (6 words > 4) pushes the score below the threshold and
the detector returns nothing, yet the claim's meaningful-word score (one
meaningful word, no penalty) exceeds `1/2`: the claim's "meaningful words"
reading disagrees with the code. -/
theorem detectSectionHeaders_meaningful_counterexample :
    detectSectionHeaders ["a la carte of the in".data] = [] ∧
      (1 : ℝ) / 2 < headerScoreMeaningfulR "a la carte of the in".data := by
  constructor
  · decide
  · simp only [headerScoreMeaningfulR]
    rw [lt_max_iff]
    right
    rw [show headerPenaltyMeaningful "a la carte of the in".data = 0 from by decide]
    rw [Rat.cast_zero, sub_zero]
    have hmem : "a la carte" ∈ SECTION_HEADERS := by decide
    have hsim : (((1 : ℚ) / 2 : ℚ) : ℝ) < calculateSimilarityR
        (normalizeText "a la carte of the in".data) ("a la carte".data) :=
      (similarityGt_iff _ _ (by norm_num)).mp (by decide)
    calc (1 : ℝ) / 2 = (((1 : ℚ) / 2 : ℚ) : ℝ) := by norm_num
      _ < calculateSimilarityR (normalizeText "a la carte of the in".data)
            ("a la carte".data) := hsim
      _ ≤ _ := le_foldl_max_of_mem
            (fun h : String =>
              calculateSimilarityR (normalizeText "a la carte of the in".data) h.data)
            SECTION_HEADERS 0 "a la carte" hmem

end Mlmp
